import Mathlib

/-!
Verification of the resume line-parsing engine (`app/core`) against its
natural-language specification.

The development shallowly embeds the relevant Python functions as executable
Lean definitions operating on `List Char` (Python `str`).  Machine floats that
only ever hold small decimal constants (confidence scores) are modelled as
exact rationals; fallible code is modelled with `Option` (`none` = the Python
code raised).  Python's mutable loops are modelled as structural recursions
that thread the loop state explicitly.

Naming follows the source: a Lean definition `normalize_pdf_wordbreaks`
embeds the Python function of the same name (leading underscores dropped).
-/

set_option maxRecDepth 10000

namespace Resume

/-- Python string, modelled as a list of characters. -/
abbrev Str := List Char

/-- Shorthand for injecting a Lean string literal into the model. -/
def S (s : String) : Str := s.data

/-- Python `\s` / `str.strip()` whitespace class (space, tab, newline,
carriage return, vertical tab, form feed). -/
def pyIsSpace (c : Char) : Bool :=
  c = ' ' || c = '\t' || c = '\n' || c = '\x0d' || c = '\x0b' || c = '\x0c'

/-- ASCII lowercase test, Python regex class `[a-z]`. -/
def isLowerAZ (c : Char) : Bool := 'a' ≤ c && c ≤ 'z'

/-- ASCII uppercase test, Python regex class `[A-Z]`. -/
def isUpperAZ (c : Char) : Bool := 'A' ≤ c && c ≤ 'Z'

/-- ASCII letter test, Python regex class `[A-Za-z]` / `str.isalpha` on ASCII. -/
def isAlphaAZ (c : Char) : Bool := isLowerAZ c || isUpperAZ c

/-- ASCII digit test, Python `\d` / `str.isdigit` on ASCII. -/
def isDigit09 (c : Char) : Bool := '0' ≤ c && c ≤ '9'

/-- ASCII lower-casing of one character (Python `str.lower`). -/
def toLowerAZ (c : Char) : Char :=
  if isUpperAZ c then Char.ofNat (c.toNat + 32) else c

/-- ASCII upper-casing of one character (Python `str.upper`). -/
def toUpperAZ (c : Char) : Char :=
  if isLowerAZ c then Char.ofNat (c.toNat - 32) else c

/-- Python `str.lower()`. -/
def pyLower (s : Str) : Str := s.map toLowerAZ

/-- Python `str.strip()`: drop leading and trailing whitespace. -/
def pyStrip (s : Str) : Str :=
  ((s.dropWhile pyIsSpace).reverse.dropWhile pyIsSpace).reverse

/-- Python `str.split()` with no argument: split on whitespace runs,
discarding empty pieces. -/
def pySplitWs (s : Str) : List Str :=
  (List.splitOnP pyIsSpace s).filter (fun w => w ≠ [])

/-- Python `" ".join(words)`. -/
def joinSpace (ws : List Str) : Str :=
  match ws with
  | [] => []
  | w :: rest => rest.foldl (fun acc x => acc ++ [' '] ++ x) w

/-- Python `" ".join(t.split())`: collapse whitespace runs to single spaces. -/
def collapseWs (s : Str) : Str := joinSpace (pySplitWs s)

/-- Occurrence test for a segment: does `needle` occur contiguously inside
`hay` (Python `needle in hay`)? -/
def strContains (hay needle : Str) : Bool :=
  needle.isPrefixOf hay ||
    (match hay with
     | [] => false
     | _ :: t => strContains t needle)

/-- Python `str.isupper()`: at least one cased character and no lowercase
character (cased characters restricted to ASCII letters, which covers every
string the engine handles). -/
def pyIsUpper (s : Str) : Bool :=
  s.any isAlphaAZ && s.all (fun c => !(isLowerAZ c))

/-- Fuel-driven worker for `replaceAll`; the fuel (one unit per consumed
character) only makes the structural recursion explicit. -/
def replaceAllF : Nat → Str → Str → Str → Str
  | 0, s, _, _ => s
  | _ + 1, [], _, _ => []
  | f + 1, c :: t, old, new =>
    if !old.isEmpty && old.isPrefixOf (c :: t) then
      new ++ replaceAllF f ((c :: t).drop old.length) old new
    else
      c :: replaceAllF f t old new

/-- Python `str.replace(old, new)` for a nonempty `old`: replace all
non-overlapping occurrences, scanning left to right. -/
def replaceAll (s old new : Str) : Str :=
  replaceAllF s.length s old new

/-- Truthiness of Python's `Optional[str]` (`None` and `""` are falsy). -/
def optTruthy (s : Option Str) : Bool :=
  match s with
  | none => false
  | some v => v ≠ []

/-- Python `s or ""` on an `Optional[str]`. -/
def orEmpty (s : Option Str) : Str := (s.getD [])

/-- Lemma: a segment surrounded by arbitrary material is found by
`strContains`. -/
theorem contains_of_append (a needle b : Str) :
    strContains (a ++ needle ++ b) needle = true := by
  induction a with
  | nil =>
    rw [strContains.eq_def]
    have : List.isPrefixOf needle (needle ++ b) = true := by
      simp [List.isPrefixOf_iff_prefix]
    simp [this]
  | cons c t ih =>
    rw [List.cons_append, List.cons_append, strContains.eq_def]
    simp only [List.cons_append] at ih ⊢
    rw [ih]
    simp

/-- Lemma: a string equal to a surrounded segment contains that segment. -/
theorem contains_of_eq_append {hay needle a b : Str} (h : hay = a ++ needle ++ b) :
    strContains hay needle = true :=
  h ▸ contains_of_append a needle b

/-- Lemma: stripping produces a contiguous segment of the original string. -/
theorem strip_contains (s : Str) : strContains s (pyStrip s) = true := by
  have h1 : s.takeWhile pyIsSpace ++ s.dropWhile pyIsSpace = s :=
    List.takeWhile_append_dropWhile pyIsSpace s
  have h2 : (s.dropWhile pyIsSpace).reverse.takeWhile pyIsSpace ++
      (s.dropWhile pyIsSpace).reverse.dropWhile pyIsSpace =
      (s.dropWhile pyIsSpace).reverse :=
    List.takeWhile_append_dropWhile pyIsSpace (s.dropWhile pyIsSpace).reverse
  have hr := congrArg List.reverse h2
  simp only [List.reverse_append, List.reverse_reverse] at hr
  refine contains_of_eq_append
    (a := s.takeWhile pyIsSpace)
    (b := ((s.dropWhile pyIsSpace).reverse.takeWhile pyIsSpace).reverse) ?_
  conv_lhs => rw [← h1]
  rw [pyStrip, List.append_assoc, hr]

/-! ## Confidence calculator (`app/core/confidence_calculator.py`)

Confidence values are small decimal constants; they are modelled as exact
rationals.  `FieldConfidence` mirrors the schema of the same name. -/

/-- Field confidence record (`schemas.FieldConfidence`). -/
structure FieldConfidence where
  field_name : Str
  confidence : ℚ
  extraction_method : Str
  reasons : List Str
  required : Bool
deriving DecidableEq, Repr

/-- Lookup in a Python `Dict[str, float]` via `d.get(key, 0.0)`. -/
def dictGetQ (m : List (Str × ℚ)) (key : Str) : ℚ :=
  match m.find? (fun kv => kv.1 = key) with
  | some kv => kv.2
  | none => 0

/-- Embedding of `ConfidenceCalculator.calculate_overall_parse_quality`:
averages the `full_name`, `email`, `phone` confidences (missing keys count
as 0.0) and classifies the mean against the 0.85 / 0.65 breakpoints. -/
def calculate_overall_parse_quality (field_confidences : List (Str × ℚ)) : Str :=
  let core_fields : List Str := [S "full_name", S "email", S "phone"]
  let core_confidences := core_fields.map (fun f => dictGetQ field_confidences f)
  let avg_core : ℚ :=
    if core_confidences ≠ [] then core_confidences.sum / core_confidences.length else 0
  if avg_core ≥ 85/100 then S "high"
  else if avg_core ≥ 65/100 then S "medium"
  else S "low"

/-- Mean of the three core-field confidences of a map, missing keys counting
as 0.0 (the quantity the spec says `parse_quality` is derived from). -/
def coreMean (m : List (Str × ℚ)) : ℚ :=
  (dictGetQ m (S "full_name") + dictGetQ m (S "email") + dictGetQ m (S "phone")) / 3

/-- Helper: the fold of the three core fields equals the explicit sum. -/
theorem calculate_overall_eq (m : List (Str × ℚ)) :
    calculate_overall_parse_quality m =
      (if coreMean m ≥ 85/100 then S "high"
       else if coreMean m ≥ 65/100 then S "medium" else S "low") := by
  set a := dictGetQ m (S "full_name") with ha
  set b := dictGetQ m (S "email") with hb
  set c := dictGetQ m (S "phone") with hc
  unfold calculate_overall_parse_quality coreMean
  rw [← ha, ← hb, ← hc]
  simp only [List.map_cons, List.map_nil, List.sum_cons, List.sum_nil, add_zero,
    ← add_assoc, List.length_cons, List.length_nil, ne_eq, reduceCtorEq,
    not_false_eq_true, if_true]
  norm_num

/-- C4: `parse_quality` is a pure function of only the `full_name`, `email`
and `phone` confidences (missing fields count as 0.0): it is `high` iff their
mean is at least 0.85, `medium` iff the mean is in [0.65, 0.85), and `low`
otherwise; maps agreeing on those three keys yield the same quality, so no
other field's confidence affects the result. -/
theorem c4_parse_quality_pure :
    (∀ m : List (Str × ℚ),
      (calculate_overall_parse_quality m = S "high" ↔ coreMean m ≥ 85/100) ∧
      (calculate_overall_parse_quality m = S "medium" ↔
        (coreMean m ≥ 65/100 ∧ ¬ coreMean m ≥ 85/100)) ∧
      (calculate_overall_parse_quality m = S "low" ↔
        (¬ coreMean m ≥ 65/100 ∧ ¬ coreMean m ≥ 85/100))) ∧
    (∀ m₁ m₂ : List (Str × ℚ),
      dictGetQ m₁ (S "full_name") = dictGetQ m₂ (S "full_name") →
      dictGetQ m₁ (S "email") = dictGetQ m₂ (S "email") →
      dictGetQ m₁ (S "phone") = dictGetQ m₂ (S "phone") →
      calculate_overall_parse_quality m₁ = calculate_overall_parse_quality m₂) := by
  have hne₁ : S "high" ≠ S "medium" := by decide
  have hne₂ : S "high" ≠ S "low" := by decide
  have hne₃ : S "medium" ≠ S "low" := by decide
  constructor
  · intro m
    rw [calculate_overall_eq]
    by_cases h85 : coreMean m ≥ 85/100 <;> by_cases h65 : coreMean m ≥ 65/100 <;>
      simp [h85, h65, hne₁, hne₂, hne₃, Ne.symm hne₁, Ne.symm hne₂, Ne.symm hne₃]
  · intro m₁ m₂ h₁ h₂ h₃
    rw [calculate_overall_eq, calculate_overall_eq, coreMean, coreMean, h₁, h₂, h₃]

/-- Witness for C4 at a concrete confidence map: with confidences
full_name = 0.9, email = 1.0, phone = 0.8 (mean 0.9) the quality is `high`,
and adding an unrelated `education` confidence does not change the result. -/
theorem c4_parse_quality_pure_witness :
    calculate_overall_parse_quality
      [(S "full_name", 9/10), (S "email", 1), (S "phone", 8/10)] = S "high" ∧
    calculate_overall_parse_quality
      [(S "full_name", 9/10), (S "email", 1), (S "phone", 8/10),
        (S "education", 0)] = S "high" := by
  have h := (c4_parse_quality_pure.1
    [(S "full_name", 9/10), (S "email", 1), (S "phone", 8/10)]).1
  have h2 := c4_parse_quality_pure.2
    [(S "full_name", 9/10), (S "email", 1), (S "phone", 8/10), (S "education", 0)]
    [(S "full_name", 9/10), (S "email", 1), (S "phone", 8/10)]
    rfl rfl rfl
  have hmean : coreMean [(S "full_name", 9/10), (S "email", 1), (S "phone", 8/10)]
      ≥ 85/100 := by
    have e : coreMean [(S "full_name", 9/10), (S "email", 1), (S "phone", 8/10)] =
        (9/10 + 1 + 8/10) / 3 := rfl
    rw [e]
    norm_num
  exact ⟨h.mpr hmean, h2.trans (h.mpr hmean)⟩

/-! ## PDF word-break repair (`education_parser.normalize_pdf_wordbreaks`) -/

/-- Head-is-letter test. -/
def headIsLetter : Str → Bool
  | d :: _ => isAlphaAZ d
  | [] => false

/-- Fuel-driven worker for the first pass of `normalize_pdf_wordbreaks`:
remove a whitespace run of length at least two standing between two letters
(regex with a letter lookbehind, two-or-more whitespace, and a letter
lookahead).  The fuel (one unit per consumed character) only makes the
structural recursion explicit. -/
def wordbreakPass1F : Nat → Str → Str
  | 0, s => s
  | _ + 1, [] => []
  | f + 1, c :: rest =>
    if isAlphaAZ c && decide (2 ≤ (rest.takeWhile pyIsSpace).length) &&
        headIsLetter (rest.dropWhile pyIsSpace) then
      c :: wordbreakPass1F f (rest.dropWhile pyIsSpace)
    else
      c :: wordbreakPass1F f rest

/-- First pass of `normalize_pdf_wordbreaks`. -/
def wordbreakPass1 (s : Str) : Str := wordbreakPass1F s.length s

/-- Second pass of `normalize_pdf_wordbreaks`: remove a single whitespace
character standing between two lowercase letters (lookbehind `[a-z]`,
one `\s`, lookahead `[a-z]`); scanning resumes at the second letter. -/
def wordbreakPass2 : Str → Str
  | a :: b :: c :: rest =>
    if isLowerAZ a && pyIsSpace b && isLowerAZ c then
      a :: wordbreakPass2 (c :: rest)
    else
      a :: wordbreakPass2 (b :: c :: rest)
  | s => s

/-- Embedding of `education_parser.normalize_pdf_wordbreaks`. -/
def normalize_pdf_wordbreaks (s : Str) : Str :=
  if s = [] then s else wordbreakPass2 (wordbreakPass1 s)

/-! ## Search normalization (`app/core/line_parser.py`)

`_normalize_for_search` and its helpers are used for matching only; the
regular expressions are hand-compiled into character scans with Python's
non-overlapping left-to-right `re.sub` semantics.  A `Nat` fuel argument
(one unit per consumed character, always instantiated with the input length)
stands in for the well-founded recursion of scans that skip runs. -/

/-- Python `str.upper()`. -/
def pyUpper (s : Str) : Str := s.map toUpperAZ

/-- Character class of `SPACED_CHARS_RE`: letters, digits, `@ . ( ) - +`. -/
def spacedClass (c : Char) : Bool :=
  isAlphaAZ c || isDigit09 c || c = '@' || c = '.' || c = '(' || c = ')' ||
    c = '-' || c = '+'

/-- Worker for `SPACED_CHARS_RE`: after `cnt` repetitions of one class
character plus a whitespace run, the string matches iff the remainder is a
nonempty all-class tail and at least two repetitions were seen, or another
repetition follows. -/
def spacedCharsGo : Nat → Nat → Str → Bool
  | _, _, [] => false
  | 0, _, _ :: _ => false
  | f + 1, cnt, c :: rest =>
    if !spacedClass c then false
    else
      match rest with
      | [] => decide (2 ≤ cnt)
      | d :: _ =>
        if pyIsSpace d then
          spacedCharsGo f (cnt + 1) (rest.dropWhile pyIsSpace)
        else
          decide (2 ≤ cnt) && (c :: rest).all spacedClass

/-- Anchored match of `SPACED_CHARS_RE` (a line of single characters
separated by whitespace). -/
def spacedCharsMatch (s : Str) : Bool := spacedCharsGo s.length 0 s

/-- Worker splitting a string at whitespace runs of length at least two
(`re.split` on two-or-more whitespace), keeping single spaces inside parts. -/
def splitWs2F : Nat → Str → Str → List Str
  | 0, acc, s => [acc ++ s]
  | _ + 1, acc, [] => [acc]
  | f + 1, acc, c :: rest =>
    if pyIsSpace c && decide (2 ≤ ((c :: rest).takeWhile pyIsSpace).length) then
      acc :: splitWs2F f [] ((c :: rest).dropWhile pyIsSpace)
    else
      splitWs2F f (acc ++ [c]) rest

/-- Embedding of `_despace_if_needed`: if the stripped line is mostly single
characters separated by spaces, split on two-or-more-space boundaries, delete
remaining whitespace inside each part, and re-join the nonempty parts. -/
def despace_if_needed (text : Str) : Str :=
  let t := pyStrip text
  if t = [] then t
  else if spacedCharsMatch t then
    let parts := (splitWs2F t.length [] t).map (fun p => p.filter (fun c => !pyIsSpace c))
    joinSpace (parts.filter (fun p => p ≠ []))
  else t

/-- Sub of one glued-job-title pattern `LIT([A-Z])` by `LIT \1`: insert a
space between the literal and a following uppercase letter, consuming both. -/
def subLitCapF (lit : Str) : Nat → Str → Str
  | 0, s => s
  | _ + 1, [] => []
  | f + 1, c :: rest =>
    let s := c :: rest
    if lit.isPrefixOf s &&
        (match s.drop lit.length with
         | d :: _ => isUpperAZ d
         | [] => false) then
      match s.drop lit.length with
      | d :: rest' => lit ++ [' ', d] ++ subLitCapF lit f rest'
      | [] => s
    else
      c :: subLitCapF lit f rest

/-- Sub of the glued pattern `([A-Z])OF([A-Z])` by `\1 OF \2`. -/
def subCapOfCap : Str → Str
  | c1 :: 'O' :: 'F' :: c2 :: rest =>
    if isUpperAZ c1 && isUpperAZ c2 then
      c1 :: ' ' :: 'O' :: 'F' :: ' ' :: c2 :: subCapOfCap rest
    else
      c1 :: subCapOfCap ('O' :: 'F' :: c2 :: rest)
  | c :: rest => c :: subCapOfCap rest
  | [] => []

/-- The six glued-job-title substitutions of `_normalize_for_search`,
applied in source order. -/
def jobTitleSubs (s : Str) : Str :=
  let s := subLitCapF (S "TERRITORY") s.length s
  let s := subLitCapF (S "MANAGER") s.length s
  let s := subLitCapF (S "KEY") s.length s
  let s := subLitCapF (S "ACCOUNT") s.length s
  let s := subLitCapF (S "GROUP") s.length s
  subCapOfCap s

/-- Punctuation class of `NO_SPACE_PUNCT_RE`: `, ; / | ( ) [ ]`. -/
def noSpacePunct (c : Char) : Bool :=
  c = ',' || c = ';' || c = '/' || c = '|' || c = '(' || c = ')' ||
    c = '[' || c = ']'

/-- Sub of `NO_SPACE_PUNCT_RE` by a space-padded copy of the punctuation. -/
def punctSpaceSub (s : Str) : Str :=
  s.foldr (fun c acc => if noSpacePunct c then ' ' :: c :: ' ' :: acc else c :: acc) []

/-- Sub of `CAMEL_BOUNDARY_RE` (`([a-z])([A-Z])` by `\1 \2`), non-overlapping. -/
def camelSub : Str → Str
  | a :: b :: rest =>
    if isLowerAZ a && isUpperAZ b then a :: ' ' :: b :: camelSub rest
    else a :: camelSub (b :: rest)
  | s => s

/-- Sub of `LETTER_DIGIT_BOUNDARY_RE` (insert a space at letter-digit or
digit-letter boundaries), non-overlapping. -/
def letterDigitSub : Str → Str
  | a :: b :: rest =>
    if (isAlphaAZ a && isDigit09 b) || (isDigit09 a && isAlphaAZ b) then
      a :: ' ' :: b :: letterDigitSub rest
    else
      a :: letterDigitSub (b :: rest)
  | s => s

/-- Embedding of `_normalize_for_search` (matching-only normalization):
despace, un-glue job-title patterns, pad punctuation, split camelCase and
letter/digit boundaries, collapse whitespace. -/
def normalize_for_search (text : Str) : Str :=
  let t := despace_if_needed (pyStrip text)
  if t = [] then t
  else
    let t := jobTitleSubs t
    let t := punctSpaceSub t
    let t := camelSub t
    let t := letterDigitSub t
    collapseWs t

/-- Worker removing whitespace runs that stand before a comma
(`re.sub` of one-or-more whitespace followed by a comma, by a comma). -/
def wsCommaSubF : Nat → Str → Str
  | 0, s => s
  | _ + 1, [] => []
  | f + 1, c :: rest =>
    let s := c :: rest
    let ws := s.takeWhile pyIsSpace
    if !ws.isEmpty && (match s.dropWhile pyIsSpace with
                       | ',' :: _ => true
                       | _ => false) then
      ',' :: wsCommaSubF f (s.drop (ws.length + 1))
    else
      c :: wsCommaSubF f rest

/-- Worker normalizing comma spacing (`re.sub` of a comma plus optional
whitespace by a comma and one space). -/
def commaSpaceSubF : Nat → Str → Str
  | 0, s => s
  | _ + 1, [] => []
  | f + 1, c :: rest =>
    if c = ',' then
      ',' :: ' ' :: commaSpaceSubF f (rest.dropWhile pyIsSpace)
    else
      c :: commaSpaceSubF f rest

/-- Embedding of `_format_location`: delete spaces before commas, normalize
comma spacing, collapse whitespace. -/
def format_location (s : Str) : Str :=
  let s := wsCommaSubF s.length s
  let s := commaSpaceSubF s.length s
  collapseWs s

/-- The `US_STATES` two-letter code vocabulary. -/
def US_STATES : List Str :=
  [S "AL", S "AK", S "AZ", S "AR", S "CA", S "CO", S "CT", S "DE", S "FL",
   S "GA", S "HI", S "ID", S "IL", S "IN", S "IA", S "KS", S "KY", S "LA",
   S "ME", S "MD", S "MA", S "MI", S "MN", S "MS", S "MO", S "MT", S "NE",
   S "NV", S "NH", S "NJ", S "NM", S "NY", S "NC", S "ND", S "OH", S "OK",
   S "OR", S "PA", S "RI", S "SC", S "SD", S "TN", S "TX", S "UT", S "VT",
   S "VA", S "WA", S "WV", S "WI", S "WY", S "DC"]

/-- The `MULTI_WORD_STATES` vocabulary (lowercased). -/
def MULTI_WORD_STATES : List Str :=
  [S "new york", S "new mexico", S "new hampshire", S "north carolina",
   S "north dakota", S "south carolina", S "south dakota", S "west virginia",
   S "puerto rico"]

/-- Python `str.strip(",.;:–-")` used on candidate state words. -/
def stripPunctEdges (s : Str) : Str :=
  let cs : List Char := [',', '.', ';', ':', '–', '-']
  ((s.dropWhile (fun c => cs.contains c)).reverse.dropWhile
    (fun c => cs.contains c)).reverse

/-- Anchored match of one-uppercase-then-lowercase (`[A-Z][a-z]+` to the
end): used for the state-word heuristic. -/
def upperLowerPlus (w : Str) : Bool :=
  match w with
  | c :: rest => isUpperAZ c && !rest.isEmpty && rest.all isLowerAZ
  | [] => false

/-- Anchored match of `[A-Z][a-z]*` to the end: used for city words. -/
def upperLowerStar (w : Str) : Bool :=
  match w with
  | c :: rest => isUpperAZ c && rest.all isLowerAZ
  | [] => false

/-- The `invalid_city_keywords` vocabulary. -/
def invalidCityKeywords : List Str :=
  [S "study", S "abroad", S "institute", S "program", S "semester",
   S "trimester", S "year"]

/-- City-word collection of `_extract_location_from_line`: walk the words
before the comma right to left, keep up to two title-case words, stop at the
first word that is not title-case. -/
def collectCityWords : List Str → List Str → List Str
  | acc, [] => acc
  | acc, w :: rest =>
    if upperLowerStar w then
      let acc' := w :: acc
      if 2 ≤ acc'.length then acc' else collectCityWords acc' rest
    else acc

/-- Per-comma attempt of `_extract_location_from_line`. -/
def tryCommaLocation (text : Str) (pos : Nat) : Option Str :=
  let after_comma := pyStrip (text.drop (pos + 1))
  let words_after := pySplitWs after_comma
  match words_after with
  | [] => none
  | w0 :: wrest =>
    let first_word := stripPunctEdges w0
    let two_words :=
      match wrest with
      | w1 :: _ => stripPunctEdges (w0 ++ [' '] ++ w1)
      | [] => []
    let is_state_code := US_STATES.contains (pyUpper first_word)
    let is_multi_word := MULTI_WORD_STATES.contains (pyLower two_words)
    let is_valid_location := upperLowerPlus first_word && decide (4 ≤ first_word.length)
    let location_name : Option Str :=
      if is_multi_word then some two_words
      else if is_state_code then some first_word
      else if is_valid_location then some first_word
      else none
    match location_name with
    | none => none
    | some loc_name =>
      let before_comma := pyStrip (text.take pos)
      let words := pySplitWs before_comma
      match words with
      | [] => none
      | _ :: _ =>
        let city_words := collectCityWords [] words.reverse
        match city_words with
        | [] => none
        | _ :: _ =>
          let city := joinSpace city_words
          if invalidCityKeywords.any (fun kw => strContains (pyLower city) kw) then
            none
          else
            some (city ++ [',', ' '] ++ loc_name)

/-- Embedding of `_extract_location_from_line`: try every comma from right to
left, returning the first `City, State` extraction that validates. -/
def extract_location_from_line (text : Str) : Option Str :=
  let commas := ((List.range text.length).filter
    (fun i => text.getD i ' ' = ',')).reverse
  commas.findSome? (fun pos => tryCommaLocation text pos)

/-- Anchored match of `LOCATION_RE` (`[A-Za-z .'-]+,\s*[A-Za-z]{2,}` over the
whole line). -/
def locationReMatch (t : Str) : Bool :=
  let cls : Char → Bool := fun c =>
    isAlphaAZ c || c = ' ' || c = '.' || c = '\'' || c = '-'
  let pre := t.takeWhile cls
  match t.drop pre.length with
  | ',' :: rest2 =>
    let body := rest2.dropWhile pyIsSpace
    pre ≠ [] && decide (2 ≤ body.length) && body.all isAlphaAZ
  | _ => false

/-- The `HEADER_BLACKLIST` vocabulary. -/
def HEADER_BLACKLIST : List Str :=
  [S "objective", S "summary", S "professional summary", S "profile",
   S "experience", S "work experience", S "employment",
   S "employment history", S "professional experience", S "education",
   S "skills", S "technical skills", S "soft skills", S "core competencies",
   S "technical proficiencies", S "competencies", S "proficiencies",
   S "areas of expertise", S "expertise", S "strengths", S "projects",
   S "certifications", S "certification", S "licenses", S "awards",
   S "publications", S "volunteer", S "volunteering",
   S "volunteer experience", S "interests", S "hobbies", S "references",
   S "additional information"]

/-- Embedding of `_is_header_line`: blank lines, blacklisted section names
(after word-break repair and search normalization), and single all-caps
words are headers. -/
def is_header_line (text : Str) : Bool :=
  let raw := pyStrip text
  if raw = [] then true
  else
    let raw := normalize_pdf_wordbreaks raw
    let t := normalize_for_search raw
    let key := pyLower (collapseWs t)
    if HEADER_BLACKLIST.contains key then true
    else if pyIsUpper t && !t.contains ' ' then true
    else false

/-! ## Education keyword predicates (`app/core/education_parser.py`) -/

/-- The `DEGREE_KEYWORDS` vocabulary. -/
def DEGREE_KEYWORDS : List Str :=
  [S "bachelor of", S "bachelor's", S "master of", S "master's",
   S "associate of", S "associate's", S "b.s.", S "b.a.", S "m.s.", S "m.a.",
   S "m.b.a.", S "ph.d.", S "phd", S "doctorate", S "doctoral",
   S "graduate degree", S "postgraduate", S "diploma", S "certificate",
   S "b.s. in", S "b.a. in", S "m.s. in", S "m.a. in"]

/-- The `INSTITUTION_KEYWORDS` vocabulary. -/
def INSTITUTION_KEYWORDS : List Str :=
  [S "university", S "college", S "institute", S "institute of", S "school",
   S "academy", S "high school", S "secondary school", S "prep school",
   S "polytechnic", S "state university", S "community college",
   S "trade school"]

/-- The `HIGH_SCHOOL_KEYWORDS` vocabulary. -/
def HIGH_SCHOOL_KEYWORDS : List Str :=
  [S "high school", S "secondary school", S "prep school", S "preparatory"]

/-- The `STUDY_ABROAD_KEYWORDS` vocabulary. -/
def STUDY_ABROAD_KEYWORDS : List Str :=
  [S "study abroad", S "institute of study abroad", S "dis study abroad",
   S "semester abroad", S "year abroad"]

/-- The `EDUCATION_SECTION_HEADERS` vocabulary. -/
def EDUCATION_SECTION_HEADERS : List Str :=
  [S "education", S "academic background", S "education & training",
   S "academic", S "schooling", S "academic experience"]

/-- The `EXPERIENCE_SECTION_HEADERS` vocabulary. -/
def EXPERIENCE_SECTION_HEADERS : List Str :=
  [S "experience", S "professional experience", S "work experience",
   S "employment", S "work history", S "career", S "career experience",
   S "career experience & achievements",
   S "career experience and achievements"]

/-- Embedding of `has_degree_keyword`: case-insensitive substring test
against `DEGREE_KEYWORDS`. -/
def has_degree_keyword (text : Str) : Bool :=
  DEGREE_KEYWORDS.any (fun k => strContains (pyLower text) k)

/-- Embedding of `is_high_school`. -/
def is_high_school (text : Str) : Bool :=
  HIGH_SCHOOL_KEYWORDS.any (fun k => strContains (pyLower text) k)

/-- Embedding of `is_institution_keyword`. -/
def is_institution_keyword (text : Str) : Bool :=
  INSTITUTION_KEYWORDS.any (fun k => strContains (pyLower text) k)

/-- Embedding of `is_study_abroad`. -/
def is_study_abroad (text : Str) : Bool :=
  STUDY_ABROAD_KEYWORDS.any (fun k => strContains (pyLower text) k)

/-- Embedding of `detect_section_type`: strip, fix PDF word breaks, lower,
collapse whitespace, then look the line up in the two header vocabularies. -/
def detect_section_type (line : Str) : Option Str :=
  let normalized := collapseWs (pyLower (normalize_pdf_wordbreaks (pyStrip line)))
  if normalized ∈ EDUCATION_SECTION_HEADERS then some (S "education")
  else if normalized ∈ EXPERIENCE_SECTION_HEADERS then some (S "experience")
  else none

/-! ## Degree extraction (`education_parser.extract_degree_from_text`)

The three degree regex alternations are literal alternatives (the second with
an optional whitespace-plus-`in` tail).  `re.search` semantics: leftmost
position wins, and at equal positions the earlier alternative wins. -/

/-- Match one literal alternative at the head of `rem`, with Python's greedy
optional whitespace-plus-`in` extension; returns the matched length. -/
def matchAltOptIn (withIn : Bool) (alt rem : Str) : Option Nat :=
  if alt.isPrefixOf rem then
    let after := rem.drop alt.length
    let ws := after.takeWhile pyIsSpace
    if withIn ∧ ws ≠ [] ∧ (S "in").isPrefixOf (after.drop ws.length) then
      some (alt.length + ws.length + 2)
    else
      some alt.length
  else none

/-- Leftmost-first search of literal alternatives: returns the match start
position and length. -/
def firstAltMatch (withIn : Bool) (alts : List Str) : Str → Option (Nat × Nat)
  | [] =>
    match alts.findSome? (fun a => matchAltOptIn withIn a []) with
    | some n => some (0, n)
    | none => none
  | c :: rest =>
    match alts.findSome? (fun a => matchAltOptIn withIn a (c :: rest)) with
    | some n => some (0, n)
    | none =>
      match firstAltMatch withIn alts rest with
      | some (i, n) => some (i + 1, n)
      | none => none

/-- Alternatives of the first degree pattern (multi-word degree names). -/
def degreePattern1 : List Str :=
  [S "bachelor of science", S "bachelor's degree", S "master of science",
   S "master's degree", S "associate of", S "bachelor of arts",
   S "master of arts", S "doctor of philosophy"]

/-- Alternatives of the second degree pattern (abbreviations, each with an
optional whitespace-plus-`in` tail). -/
def degreePattern2 : List Str :=
  [S "b.s.", S "b.a.", S "m.s.", S "m.a.", S "m.b.a.", S "ph.d."]

/-- Alternatives of the third degree pattern (bare keywords). -/
def degreePattern3 : List Str :=
  [S "bachelor", S "master", S "associate", S "doctorate", S "doctoral",
   S "phd", S "graduate degree", S "postgraduate degree"]

/-- Embedding of `extract_degree_from_text`: normalize word breaks, search
the three patterns over the lowercased text in order, and return the
original-case slice of the first match, stripped. -/
def extract_degree_from_text (text : Str) : Option Str :=
  let text' := normalize_pdf_wordbreaks text
  let text_lower := pyLower text'
  let hit :=
    match firstAltMatch false degreePattern1 text_lower with
    | some r => some r
    | none =>
      match firstAltMatch true degreePattern2 text_lower with
      | some r => some r
      | none => firstAltMatch false degreePattern3 text_lower
  match hit with
  | some (start, len) => some (pyStrip ((text'.drop start).take len))
  | none => none

/-! ## Scalar-field extraction (`parse_lines_to_response`, sections 1–3)

The phone/email/name/location scans of `parse_lines_to_response` are
embedded with their evidence-recording behavior.  The value-level regex
searches that merely gate the scans (`PHONE_RE.search`, the delegated
`extract_email_flexible`) are taken as function parameters: every claim in
scope only concerns which text is recorded as evidence, which the source
fixes independently of the matcher's verdict (the displayed phone value
re-extracted from the original line is likewise not consulted by any
claim). -/

/-- An input line: `(locator, text)`. -/
abbrev Line := Str × Str

/-- Evidence record (`schemas.EvidenceItem`). -/
structure EvidenceItem where
  source : Str
  locator : Str
  text : Str
  confidence : ℚ := 1
deriving DecidableEq, Repr

/-- Embedding of the local `add_ev` helper of `parse_lines_to_response`:
evidence is recorded with the given text stripped. -/
def add_ev (source locator text : Str) : EvidenceItem :=
  { source := source, locator := locator, text := pyStrip text }

/-- Embedding of the phone loop (section 1 of `parse_lines_to_response`):
scan the lines, and at the first line whose search-normalized text matches
the phone pattern, record the original line text as evidence and stop. -/
def phoneScanGo (phoneFound : Str → Bool) (source : Str) :
    List Line → Nat → List EvidenceItem × Option Nat
  | [], _ => ([], none)
  | (locator, text) :: rest, idx =>
    if phoneFound (normalize_for_search text) then
      ([add_ev source locator text], some idx)
    else
      phoneScanGo phoneFound source rest (idx + 1)

/-- Phone scan over a full line sequence. -/
def phone_scan (phoneFound : Str → Bool) (source : Str) (lines : List Line) :
    List EvidenceItem × Option Nat :=
  phoneScanGo phoneFound source lines 0

/-- Embedding of the email loop (section 1 of `parse_lines_to_response`):
each line is despaced, the extractor is tried on the whitespace-free and the
despaced text, and on success the original line text is recorded as
evidence. -/
def emailScanGo (extractEmail : Str → Option Str) (source : Str) :
    List Line → Nat → Option Str × List EvidenceItem × Option Nat
  | [], _ => (none, [], none)
  | (locator, text) :: rest, idx =>
    let raw := despace_if_needed text
    let raw_nospace := raw.filter (fun c => !pyIsSpace c)
    match extractEmail raw_nospace with
    | some email => (some email, [add_ev source locator text], some idx)
    | none =>
      match extractEmail raw with
      | some email => (some email, [add_ev source locator text], some idx)
      | none => emailScanGo extractEmail source rest (idx + 1)

/-- Email scan over a full line sequence. -/
def email_scan (extractEmail : Str → Option Str) (source : Str)
    (lines : List Line) : Option Str × List EvidenceItem × Option Nat :=
  emailScanGo extractEmail source lines 0

/-- Anchored match of the name-candidate pattern (a letter followed by 1–58
characters drawn from letters, space, dot, apostrophe, hyphen). -/
def nameCharsMatch (t : Str) : Bool :=
  match t with
  | c :: rest =>
    isAlphaAZ c && decide (1 ≤ rest.length) && decide (rest.length ≤ 58) &&
      rest.all (fun d => isAlphaAZ d || d = ' ' || d = '.' || d = '\'' || d = '-')
  | [] => false

/-- Embedding of the local `looks_like_name` of `parse_lines_to_response`. -/
def looks_like_name (s : Str) : Bool :=
  let t := normalize_for_search (pyStrip s)
  if t.isEmpty || decide (60 < t.length) then false
  else if is_header_line t then false
  else if !nameCharsMatch t then false
  else decide (2 ≤ (pySplitWs t).length)

/-- Python `str.title()`: uppercase every letter that follows a non-letter,
lowercase the other letters. -/
def pyTitleGo : Bool → Str → Str
  | _, [] => []
  | prevAlpha, c :: rest =>
    (if isAlphaAZ c then (if prevAlpha then toLowerAZ c else toUpperAZ c) else c)
      :: pyTitleGo (isAlphaAZ c) rest

/-- Python `str.title()`. -/
def pyTitle (s : Str) : Str := pyTitleGo false s

/-- Embedding of `_normalize_name`: title-case an all-caps display name. -/
def normalize_name (name : Str) : Str :=
  let t := pyStrip name
  if pyIsUpper t then pyTitle t else t

/-- First index at which `needle` occurs in `hay`. -/
def findSubIdx : Str → Str → Option Nat
  | hay, needle =>
    match hay with
    | [] => if needle.isEmpty then some 0 else none
    | _ :: rest =>
      if needle.isPrefixOf hay then some 0
      else (findSubIdx rest needle).map (· + 1)

/-- Python `t.split(sep, 1)[0]`: the text before the first occurrence of
`sep` (the whole text if absent). -/
def splitBeforeFirst (t sep : Str) : Str :=
  match findSubIdx t sep with
  | some i => t.take i
  | none => t

/-- Anchored match of the glued-top-line token pattern (`[A-Za-z][A-Za-z.'-]*`
over a whole token). -/
def nameTokenMatch (tok : Str) : Bool :=
  match tok with
  | c :: rest =>
    isAlphaAZ c && rest.all (fun d => isAlphaAZ d || d = '.' || d = '\'' || d = '-')
  | [] => false

/-- Embedding of `try_name_from_window`: search the up-to-three lines above
the email line, closest first, for a name-looking line. -/
def try_name_from_window (source : Str) (lines : List Line) :
    Option Nat → Option (Str × EvidenceItem)
  | none => none
  | some center =>
    ((List.range center).reverse.filter (fun j => center - 3 ≤ j)).findSome?
      (fun j =>
        match lines.get? j with
        | some (locator, text) =>
          if looks_like_name text then
            some (normalize_name (normalize_for_search text), add_ev source locator text)
          else none
        | none => none)

/-- Prefix of the glued top line used for name guessing: the text before the
email when an email was found, the whole line otherwise. -/
def gluedPrefix (email : Option Str) (t : Str) : Str :=
  match email with
  | some e => if !e.isEmpty && strContains t e then pyStrip (splitBeforeFirst t e) else t
  | none => t

/-- Embedding of `try_name_from_glued_top_line`: take the first line, cut it
before the email when present, and accept the first two token-shaped words
unless they form a header. -/
def try_name_from_glued_top_line (source : Str) (email : Option Str)
    (lines : List Line) : Option (Str × EvidenceItem) :=
  match lines with
  | [] => none
  | (locator, raw) :: _ =>
    match (pySplitWs (gluedPrefix email (normalize_for_search raw))).filter
        nameTokenMatch with
    | tok0 :: tok1 :: _ =>
      if !is_header_line (tok0 ++ [' '] ++ tok1) then
        some (normalize_name (tok0 ++ [' '] ++ tok1), add_ev source locator raw)
      else none
    | _ => none

/-- Embedding of the full-name extraction (section 2 of
`parse_lines_to_response`): email window first, then the first ten lines,
then the glued top line. -/
def name_scan (source : Str) (email : Option Str) (lines : List Line)
    (emailIdx : Option Nat) : Option (Str × EvidenceItem) :=
  match try_name_from_window source lines emailIdx with
  | some r => some r
  | none =>
    match (lines.take 10).findSome? (fun lt =>
      if looks_like_name lt.2 then
        some (normalize_name (normalize_for_search lt.2), add_ev source lt.1 lt.2)
      else none) with
    | some r => some r
    | none => try_name_from_glued_top_line source email lines

/-- Embedding of `maybe_set_location`: on a non-header line of bounded
length, match the location pattern against the search-normalized text and
record the formatted location as evidence. -/
def maybe_set_location (source : Str) (locator text : Str) :
    Option (Str × EvidenceItem) :=
  if 200 < (normalize_for_search text).length then none
  else if is_header_line (normalize_for_search text) then none
  else if locationReMatch (normalize_for_search text) ||
      (extract_location_from_line (normalize_for_search text)).isSome then
    some (format_location
        ((extract_location_from_line (normalize_for_search text)).getD
          (normalize_for_search text)),
      add_ev source locator
        (format_location
          ((extract_location_from_line (normalize_for_search text)).getD
            (normalize_for_search text))))
  else none

/-- Embedding of the location scan (section 3 of `parse_lines_to_response`):
first successful `maybe_set_location` over the first fifteen lines. -/
def location_scan (source : Str) (lines : List Line) :
    Option (Str × EvidenceItem) :=
  (lines.take 15).findSome? (fun lt => maybe_set_location source lt.1 lt.2)

/-- Helper: a successful `findSome?` comes from some member of the list. -/
theorem findSome?_exists_mem {α β : Type} {l : List α} {f : α → Option β}
    {r : β} (h : l.findSome? f = some r) : ∃ a ∈ l, f a = some r := by
  induction l with
  | nil => simp [List.findSome?] at h
  | cons x xs ih =>
    rw [List.findSome?] at h
    cases hx : f x with
    | some v =>
      rw [hx] at h
      exact ⟨x, List.mem_cons_self x xs, hx.trans h⟩
    | none =>
      rw [hx] at h
      obtain ⟨a, ha, hfa⟩ := ih h
      exact ⟨a, List.mem_cons_of_mem x ha, hfa⟩

/-- Helper: phone evidence is always the stripped text of a scanned line. -/
theorem phoneScanGo_evidence (pf : Str → Bool) (src : Str) :
    ∀ (lines : List Line) (idx : Nat) (ev : EvidenceItem),
      ev ∈ (phoneScanGo pf src lines idx).1 → ∃ l ∈ lines, ev.text = pyStrip l.2 := by
  intro lines
  induction lines with
  | nil => intro idx ev h; simp [phoneScanGo] at h
  | cons lt rest ih =>
    intro idx ev h
    obtain ⟨loc, text⟩ := lt
    rw [phoneScanGo] at h
    split at h
    · simp only [List.mem_singleton] at h
      exact ⟨(loc, text), List.mem_cons_self _ _, by simp [h, add_ev]⟩
    · obtain ⟨l, hl, ht⟩ := ih (idx + 1) ev h
      exact ⟨l, List.mem_cons_of_mem _ hl, ht⟩

/-- Helper: email evidence is always the stripped text of a scanned line. -/
theorem emailScanGo_evidence (ee : Str → Option Str) (src : Str) :
    ∀ (lines : List Line) (idx : Nat) (ev : EvidenceItem),
      ev ∈ (emailScanGo ee src lines idx).2.1 →
      ∃ l ∈ lines, ev.text = pyStrip l.2 := by
  intro lines
  induction lines with
  | nil => intro idx ev h; simp [emailScanGo] at h
  | cons lt rest ih =>
    intro idx ev h
    obtain ⟨loc, text⟩ := lt
    rw [emailScanGo] at h
    cases h1 : ee ((despace_if_needed text).filter (fun c => !pyIsSpace c)) with
    | some e =>
      rw [h1] at h
      simp only [List.mem_singleton] at h
      exact ⟨(loc, text), List.mem_cons_self _ _, by simp [h, add_ev]⟩
    | none =>
      rw [h1] at h
      cases h2 : ee (despace_if_needed text) with
      | some e =>
        rw [h2] at h
        simp only [List.mem_singleton] at h
        exact ⟨(loc, text), List.mem_cons_self _ _, by simp [h, add_ev]⟩
      | none =>
        rw [h2] at h
        obtain ⟨l, hl, ht⟩ := ih (idx + 1) ev h
        exact ⟨l, List.mem_cons_of_mem _ hl, ht⟩

/-- Helper: name evidence is always the stripped text of a scanned line. -/
theorem name_scan_evidence (src : Str) (email : Option Str) (lines : List Line)
    (emailIdx : Option Nat) (name : Str) (ev : EvidenceItem)
    (h : name_scan src email lines emailIdx = some (name, ev)) :
    ∃ l ∈ lines, ev.text = pyStrip l.2 := by
  rw [name_scan] at h
  cases hw : try_name_from_window src lines emailIdx with
  | some r =>
    rw [hw] at h
    obtain rfl : r = (name, ev) := by injection h
    cases emailIdx with
    | none => exact absurd hw (by simp [try_name_from_window])
    | some center =>
      rw [try_name_from_window] at hw
      obtain ⟨j, _, hj⟩ := findSome?_exists_mem hw
      cases hget : lines.get? j with
      | none => rw [hget] at hj; simp at hj
      | some lt =>
        obtain ⟨loc, text⟩ := lt
        rw [hget] at hj
        simp only [] at hj
        split at hj
        · injection hj with hpair
          injection hpair with hname hev
          subst hev
          exact ⟨(loc, text), List.get?_mem hget, by simp [add_ev]⟩
        · simp at hj
  | none =>
    rw [hw] at h
    cases ht10 : (lines.take 10).findSome? (fun lt =>
        if looks_like_name lt.2 then
          some (normalize_name (normalize_for_search lt.2), add_ev src lt.1 lt.2)
        else none) with
    | some r =>
      rw [ht10] at h
      obtain rfl : r = (name, ev) := by injection h
      obtain ⟨lt, hmem, hlt⟩ := findSome?_exists_mem ht10
      split at hlt
      · injection hlt with hpair
        injection hpair with hname hev
        subst hev
        exact ⟨lt, List.take_subset 10 lines hmem, by simp [add_ev]⟩
      · simp at hlt
    | none =>
      rw [ht10] at h
      cases lines with
      | nil => simp [try_name_from_glued_top_line] at h
      | cons l0 rest =>
        obtain ⟨loc, raw⟩ := l0
        rw [try_name_from_glued_top_line] at h
        cases htoks : (pySplitWs (gluedPrefix email (normalize_for_search raw))).filter
            nameTokenMatch with
        | nil => rw [htoks] at h; simp at h
        | cons tok0 toks1 =>
          cases toks1 with
          | nil => rw [htoks] at h; simp at h
          | cons tok1 trest =>
            rw [htoks] at h
            simp only [] at h
            split at h
            · injection h with hpair
              injection hpair with hname hev
              subst hev
              exact ⟨(loc, raw), List.mem_cons_self _ _, by simp [add_ev]⟩
            · simp at h

/-- Helper: location evidence is the stripped formatted location extracted
from the search-normalized line, for some scanned line. -/
theorem location_scan_evidence (src : Str) (lines : List Line) (loc : Str)
    (ev : EvidenceItem) (h : location_scan src lines = some (loc, ev)) :
    ∃ l ∈ lines, ev.text =
      pyStrip (format_location
        ((extract_location_from_line (normalize_for_search l.2)).getD
          (normalize_for_search l.2))) := by
  rw [location_scan] at h
  obtain ⟨lt, hmem, hlt⟩ := findSome?_exists_mem h
  obtain ⟨lloc, ltext⟩ := lt
  simp only [] at hlt
  rw [maybe_set_location] at hlt
  split at hlt
  · exact Option.noConfusion hlt
  · split at hlt
    · exact Option.noConfusion hlt
    · split at hlt
      · refine ⟨(lloc, ltext), List.take_subset 15 lines hmem, ?_⟩
        show ev.text = pyStrip (format_location
          ((extract_location_from_line (normalize_for_search ltext)).getD
            (normalize_for_search ltext)))
        generalize hX : format_location
          ((extract_location_from_line (normalize_for_search ltext)).getD
            (normalize_for_search ltext)) = X at hlt ⊢
        simp only [Option.some.injEq, Prod.mk.injEq] at hlt
        exact hlt.2 ▸ rfl
      · exact Option.noConfusion hlt

/-- C6 (amended): every evidence item recorded by the phone, email and
full-name scans carries the stripped original text of some input line — a
verbatim substring of that line — while a location evidence item carries the
stripped `_format_location` of the location extracted from the
search-normalized line, which need not occur in any input line. -/
theorem c6_evidence_traceability_amended :
    (∀ (pf : Str → Bool) (src : Str) (lines : List Line) (ev : EvidenceItem),
      ev ∈ (phone_scan pf src lines).1 →
      ∃ l ∈ lines, ev.text = pyStrip l.2 ∧ strContains l.2 ev.text = true) ∧
    (∀ (ee : Str → Option Str) (src : Str) (lines : List Line) (ev : EvidenceItem),
      ev ∈ (email_scan ee src lines).2.1 →
      ∃ l ∈ lines, ev.text = pyStrip l.2 ∧ strContains l.2 ev.text = true) ∧
    (∀ (src : Str) (email : Option Str) (lines : List Line)
      (emailIdx : Option Nat) (name : Str) (ev : EvidenceItem),
      name_scan src email lines emailIdx = some (name, ev) →
      ∃ l ∈ lines, ev.text = pyStrip l.2 ∧ strContains l.2 ev.text = true) ∧
    (∀ (src : Str) (lines : List Line) (loc : Str) (ev : EvidenceItem),
      location_scan src lines = some (loc, ev) →
      ∃ l ∈ lines, ev.text =
        pyStrip (format_location
          ((extract_location_from_line (normalize_for_search l.2)).getD
            (normalize_for_search l.2)))) := by
  refine ⟨?_, ?_, ?_, location_scan_evidence⟩
  · intro pf src lines ev h
    obtain ⟨l, hl, ht⟩ := phoneScanGo_evidence pf src lines 0 ev h
    exact ⟨l, hl, ht, ht ▸ strip_contains l.2⟩
  · intro ee src lines ev h
    obtain ⟨l, hl, ht⟩ := emailScanGo_evidence ee src lines 0 ev h
    exact ⟨l, hl, ht, ht ▸ strip_contains l.2⟩
  · intro src email lines emailIdx name ev h
    obtain ⟨l, hl, ht⟩ := name_scan_evidence src email lines emailIdx name ev h
    exact ⟨l, hl, ht, ht ▸ strip_contains l.2⟩

/-- Witness for C6 at concrete inputs: each of the four scans fires on a
concrete line and the amended traceability conclusion holds there. -/
theorem c6_evidence_traceability_witness :
    (∃ l ∈ [(S "l1", S " (555) 123-4567 ")],
      (add_ev (S "text") (S "l1") (S " (555) 123-4567 ")).text = pyStrip l.2 ∧
      strContains l.2 (add_ev (S "text") (S "l1") (S " (555) 123-4567 ")).text = true) ∧
    (∃ l ∈ [(S "l1", S " john@example.com ")],
      (add_ev (S "text") (S "l1") (S " john@example.com ")).text = pyStrip l.2 ∧
      strContains l.2 (add_ev (S "text") (S "l1") (S " john@example.com ")).text = true) ∧
    (∃ l ∈ [(S "l1", S "John Smith")],
      (add_ev (S "text") (S "l1") (S "John Smith")).text = pyStrip l.2 ∧
      strContains l.2 (add_ev (S "text") (S "l1") (S "John Smith")).text = true) ∧
    (∃ l ∈ [(S "l2", S "New York, NY")],
      (add_ev (S "text") (S "l2") (S "New York, NY")).text =
        pyStrip (format_location
          ((extract_location_from_line (normalize_for_search l.2)).getD
            (normalize_for_search l.2)))) := by
  obtain ⟨hp, he, hn, hl⟩ := c6_evidence_traceability_amended
  refine ⟨?_, ?_, ?_, ?_⟩
  · exact hp (fun _ => true) (S "text") [(S "l1", S " (555) 123-4567 ")]
      (add_ev (S "text") (S "l1") (S " (555) 123-4567 ")) (by decide)
  · exact he (fun s => some s) (S "text") [(S "l1", S " john@example.com ")]
      (add_ev (S "text") (S "l1") (S " john@example.com ")) (by decide)
  · exact hn (S "text") none [(S "l1", S "John Smith")] none (S "John Smith")
      (add_ev (S "text") (S "l1") (S "John Smith")) (by decide)
  · exact hl (S "text") [(S "l2", S "New York, NY")] (S "New York, NY")
      (add_ev (S "text") (S "l2") (S "New York, NY")) (by decide)

/-- C6 (counterexample): on the input line `Austin , TX` the location scan
records evidence text `Austin, TX`, which is a verbatim substring neither of
the original line nor of its search-normalized form — so location evidence is
not traceable to a SourceLine even up to the engine's own matching-only
normalization. -/
theorem c6_location_evidence_counterexample :
    location_scan (S "text") [(S "text:line:1", S "Austin , TX")] =
      some (S "Austin, TX",
        { source := S "text", locator := S "text:line:1", text := S "Austin, TX" }) ∧
    strContains (S "Austin , TX") (S "Austin, TX") = false ∧
    strContains (normalize_for_search (S "Austin , TX")) (S "Austin, TX") = false := by
  refine ⟨by decide, by decide, by decide⟩

/-! ## Experience line classification (`line_parser.py`)

Helpers for `_group_experience_entries`: the bullet detector, the date-range
detectors, the single-line and two-part colon formats, and the header
heuristics. -/

/-- Character class of `BULLET_RE` (whitespace and bullet markers). -/
def bulletClass (c : Char) : Bool :=
  pyIsSpace c || c = '•' || c = '●' || c = '-' || c = '*' || c = '>' || c = '+'

/-- Prefix match of `BULLET_RE` (one or more bullet-class characters). -/
def bulletMatch : Str → Bool
  | c :: _ => bulletClass c
  | [] => false

/-- First member of a list of parse continuations that succeeds; encodes
regex backtracking over greedy-ordered alternatives. -/
def firstSome {α : Type} : List α → (α → Option Str) → Option Str
  | [], _ => none
  | a :: rest, f =>
    match f a with
    | some r => some r
    | none => firstSome rest f

/-- Rest-strings after consuming between one and `maxN` digits, longest
first (greedy order). -/
def digitRests (maxN : Nat) (s : Str) : List Str :=
  let run := (s.takeWhile isDigit09).length
  (List.range (min maxN run)).reverse.map (fun k => s.drop (k + 1))

/-- Parse a dash or slash at the head. -/
def dashSlash : Str → Option Str
  | c :: rest => if c = '-' || c = '/' then some rest else none
  | _ => none

/-- Parse the date separator `(?:-|–|to)` (case-insensitive `to`). -/
def dateSep : Str → Option Str
  | c :: rest =>
    if c = '-' || c = '–' then some rest
    else
      match c :: rest with
      | c1 :: c2 :: rest2 =>
        if (c1 = 't' || c1 = 'T') && (c2 = 'o' || c2 = 'O') then some rest2
        else none
      | _ => none
  | _ => none

/-- Case-insensitive literal prefix parse. -/
def ciPrefix (lit : Str) (s : Str) : Option Str :=
  if (pyLower lit).isPrefixOf (pyLower (s.take lit.length)) &&
      decide (lit.length ≤ s.length) then
    some (s.drop lit.length)
  else none

/-- Parse one-or-two digits, a dash or slash, one-to-four digits with greedy backtracking. -/
def shortDate (s : Str) : Option Str :=
  firstSome (digitRests 2 s) (fun s1 =>
    match dashSlash s1 with
    | some s2 => firstSome (digitRests 4 s2) (fun s3 => some s3)
    | none => none)

/-- Existence search for one-or-two digits, a dash or slash, one-to-four digits anywhere in the string
(`re.search`). -/
def hasShortDate : Str → Bool
  | [] => false
  | c :: rest => (shortDate (c :: rest)).isSome || hasShortDate rest

/-- Prefix match of the date-only-line pattern
(one-or-two digits, a dash or slash, one-to-four digits separator one-or-two digits, a dash or slash, one-to-four digits or
`Present`/`Current`, case-insensitive, from the start of the line). -/
def dateOnlyLineMatch (t : Str) : Bool :=
  (firstSome (digitRests 2 t) (fun s1 =>
    match dashSlash s1 with
    | some s2 =>
      firstSome (digitRests 4 s2) (fun s3 =>
        let s4 := s3.dropWhile pyIsSpace
        match dateSep s4 with
        | some s5 =>
          let s6 := s5.dropWhile pyIsSpace
          match shortDate s6 with
          | some r => some r
          | none =>
            match ciPrefix (S "Present") s6 with
            | some r => some r
            | none => ciPrefix (S "Current") s6
        | none => none)
    | none => none)).isSome

/-- Positions of a character in a string. -/
def charPositions (ch : Char) (t : Str) : List Nat :=
  (List.range t.length).filter (fun i => t.getD i ' ' = ch)

/-- Match of `SINGLE_LINE_EXPERIENCE_RE` (`(.+?):\s*(.+?):\s*(.+)` over the
whole line): two colons with at least one character before, between and
after (the lazy dots and backtrackable whitespace impose nothing more). -/
def singleLineExperienceMatch (t : Str) : Bool :=
  (charPositions ':' t).any (fun i =>
    decide (1 ≤ i) && (charPositions ':' t).any (fun j =>
      decide (i + 2 ≤ j) && decide (j + 2 ≤ t.length)))

/-- Character class of the two-part title group (`[A-Za-z\s&'-]`). -/
def twoPartClass (c : Char) : Bool :=
  isAlphaAZ c || pyIsSpace c || c = '&' || c = '\'' || c = '-'

/-- Tail check of `TWO_PART_EXPERIENCE_RE` after a candidate first colon:
optional whitespace, an uppercase letter, a run of title characters, then
either the end or a final colon followed only by whitespace. -/
def twoPartTail (after : Str) : Bool :=
  match after.dropWhile pyIsSpace with
  | c :: rest =>
    isUpperAZ c &&
      (match rest.drop ((rest.takeWhile twoPartClass).length) with
       | [] => true
       | ':' :: ws => ws.all pyIsSpace
       | _ => false)
  | [] => false

/-- Group 1 of `TWO_PART_EXPERIENCE_RE` (`(.+?):\s*([A-Z][A-Za-z\s&'-]*)`
with an optional trailing colon): the text before the first colon whose tail
matches. -/
def twoPartGroup1 (t : Str) : Option Str :=
  (charPositions ':' t).findSome? (fun i =>
    if decide (1 ≤ i) && twoPartTail (t.drop (i + 1)) then some (t.take i)
    else none)

/-- Head-is-uppercase test (Python `w[0].isupper()`). -/
def headIsUpper : Str → Bool
  | c :: _ => isUpperAZ c
  | [] => false

/-- Embedding of `_is_company_or_job_line`: a short, non-bullet line at
least half of whose words start uppercase. -/
def is_company_or_job_line (text : Str) : Bool :=
  let t := pyStrip text
  if bulletMatch t then false
  else if decide (150 < t.length) then false
  else if t.isEmpty then false
  else
    let words := pySplitWs t
    let upper_words := (words.filter headIsUpper).length
    decide (0 < words.length) && decide (words.length ≤ 2 * upper_words)

/-- Embedding of `_is_company_with_location_header`: a short line with a
comma whose tail parses as a location and whose head looks like a company
name. -/
def is_company_with_location_header (text : Str) : Bool :=
  if text.isEmpty || decide (150 < text.length) then false
  else if !text.contains ',' then false
  else
    match extract_location_from_line text with
    | none => false
    | some location =>
      match findSubIdx text location with
      | none => false
      | some loc_idx =>
        let before_loc := pyStrip
          (((pyStrip (text.take loc_idx)).reverse.dropWhile (fun c => c = ',')).reverse)
        if before_loc.isEmpty then false
        else if pyIsUpper before_loc && decide ((pySplitWs before_loc).length = 1) &&
            decide (before_loc.length < 20) then false
        else
          match before_loc with
          | c :: _ => isUpperAZ c || c = '&' || pyIsSpace c || c = '\'' || c = '-'
          | [] => false

/-- One date-range deletion attempt of the `_is_job_title_header` sub
pattern: optional whitespace, a short date, optional whitespace, a
separator, optional whitespace, and an optional `Present`/`Current`/short
date tail; returns the rest after the match. -/
def titleDateMatch (s : Str) : Option Str :=
  firstSome (digitRests 2 (s.dropWhile pyIsSpace)) (fun s1 =>
    match dashSlash s1 with
    | some s2 =>
      firstSome (digitRests 4 s2) (fun s3 =>
        let s4 := s3.dropWhile pyIsSpace
        match dateSep s4 with
        | some s5 =>
          let s6 := s5.dropWhile pyIsSpace
          match ciPrefix (S "Present") s6 with
          | some r => some r
          | none =>
            match ciPrefix (S "Current") s6 with
            | some r => some r
            | none =>
              match shortDate s6 with
              | some r => some r
              | none => some s6
        | none => none)
    | none => none)

/-- Fuel-driven worker deleting every match of the title date-range pattern
(`re.sub` with empty replacement, scanning left to right). -/
def titleDateSubF : Nat → Str → Str
  | 0, s => s
  | _ + 1, [] => []
  | f + 1, c :: rest =>
    match titleDateMatch (c :: rest) with
    | some r => titleDateSubF f r
    | none => c :: titleDateSubF f rest

/-- Match of the title-case pattern `[A-Z][A-Za-z\s&'-]*` over a whole
line. -/
def titleCaseMatch : Str → Bool
  | c :: rest => isUpperAZ c && rest.all twoPartClass
  | [] => false

/-- Embedding of `_is_job_title_header`: a short line without colon, comma
or location, whose date-free part is all-caps or title-case with one to six
words. -/
def is_job_title_header (text : Str) : Bool :=
  if text.isEmpty || decide (150 < text.length) then false
  else
    let t := pyStrip text
    if HEADER_BLACKLIST.contains (pyLower t) then false
    else if t.contains ':' then false
    else if t.contains ',' then false
    else if (extract_location_from_line t).isSome then false
    else
      let title_part :=
        if hasShortDate t then pyStrip (titleDateSubF t.length t) else t
      if title_part.isEmpty then false
      else if !(pyIsUpper title_part || titleCaseMatch title_part) then false
      else
        let words := (pySplitWs title_part).length
        decide (1 ≤ words) && decide (words ≤ 6)

/-- Match of the major-section-header pattern `[A-Z][A-Za-z\s/&-]*` over a
whole line (used by both groupers to stop at a new section). -/
def majorHeaderMatch : Str → Bool
  | c :: rest =>
    isUpperAZ c && rest.all (fun d =>
      isAlphaAZ d || pyIsSpace d || d = '/' || d = '&' || d = '-')
  | [] => false

/-! ## Entry grouping (`_group_experience_entries`, `_group_education_entries`) -/

/-- The priority-ordered new-entry decision chain of
`_group_experience_entries` (patterns 0 to 4, with the bullet and date-only
guards first).  Returns the `is_new_entry_start` flag and the updated cached
H2 company header. -/
def expEntryStart (cur : List Line) (lastH2 : Option Line)
    (locator text t : Str) : Bool × Option Line :=
  if bulletMatch t = true then (false, lastH2)
  else if dateOnlyLineMatch t = true then (false, lastH2)
  else if is_company_with_location_header t = true then (true, some (locator, text))
  else if (t.contains ':' && singleLineExperienceMatch t) = true then (true, none)
  else
    match twoPartGroup1 t with
    | some g1 =>
      if (decide ((pyStrip g1).length < 100) &&
          (pyIsUpper (pyStrip g1) || (pySplitWs (pyStrip g1)).any headIsUpper)) = true then
        (true, none)
      else (false, lastH2)
    | none =>
      if (!cur.isEmpty && (extract_location_from_line t).isSome &&
          !bulletMatch t && decide (t.length < 200)) = true then
        if is_company_with_location_header t = true then (true, none)
        else (false, lastH2)
      else if (!cur.isEmpty && is_job_title_header t && lastH2.isSome) = true then
        if (decide (4 ≤ cur.length) &&
            cur.any (fun l => is_job_title_header (pyStrip l.2))) = true then
          (true, lastH2)
        else (false, lastH2)
      else if (!cur.isEmpty && is_company_or_job_line t && !bulletMatch t) = true then
        if (cur.any (fun l => bulletMatch l.2) && decide (3 ≤ cur.length)) = true then
          (true, none)
        else (false, lastH2)
      else (false, lastH2)

/-- Loop worker of `_group_experience_entries`: walks the lines after the
section header carrying the open entry, the cached H2 header and the closed
entries, cutting a new entry when the decision chain fires and stopping at a
major section header. -/
def geGo : List Line → Nat → Nat → List Line → Option Line →
    List (List Line) → List (List Line)
  | [], _, _, cur, _, acc => if cur.isEmpty then acc else acc ++ [cur]
  | (locator, text) :: rest, idx, ss, cur, lastH2, acc =>
    let t := pyStrip text
    if t.isEmpty then geGo rest (idx + 1) ss cur lastH2 acc
    else if (is_header_line text && !bulletMatch t && !t.contains ':' &&
        decide (ss + 2 < idx) && majorHeaderMatch t &&
        decide ((pySplitWs t).length ≤ 5)) = true then
      if cur.isEmpty then acc else acc ++ [cur]
    else
      match expEntryStart cur lastH2 locator text t with
      | (isNew, lastH2') =>
        if (isNew && !cur.isEmpty) = true then
          if (is_job_title_header t && lastH2'.isSome &&
              !is_company_with_location_header t) = true then
            match lastH2' with
            | some h2 =>
              geGo rest (idx + 1) ss [h2, (locator, text)] lastH2' (acc ++ [cur])
            | none =>
              geGo rest (idx + 1) ss [(locator, text)] lastH2' (acc ++ [cur])
          else
            geGo rest (idx + 1) ss [(locator, text)]
              (if is_company_with_location_header t = true
               then some (locator, text) else none)
              (acc ++ [cur])
        else
          geGo rest (idx + 1) ss (cur ++ [(locator, text)]) lastH2' acc

/-- Embedding of `_group_experience_entries`. -/
def group_experience_entries (lines : List Line) (section_start : Nat) :
    List (List Line) :=
  geGo (lines.drop (section_start + 1)) (section_start + 1) section_start [] none []

/-- New-entry decision of `_group_education_entries`: institution,
high-school and study-abroad keywords always start an entry, a degree
keyword only when no entry is open, and a short non-bullet location line
when no entry is open or the open entry already has a location. -/
def eduEntryStart (cur : List Line) (t : Str) : Bool :=
  if is_institution_keyword t then true
  else if is_high_school t then true
  else if is_study_abroad t then true
  else if has_degree_keyword t && cur.isEmpty then true
  else if !bulletMatch t && (extract_location_from_line t).isSome &&
      decide (t.length < 150) then
    if cur.isEmpty then true
    else if (extract_location_from_line
        (joinSpace (cur.map (fun l => l.2)))).isSome then true
    else false
  else false

/-- Loop worker of `_group_education_entries`. -/
def edGo : List Line → Nat → Nat → List Line → List (List Line) →
    List (List Line)
  | [], _, _, cur, acc => if cur.isEmpty then acc else acc ++ [cur]
  | (locator, text) :: rest, idx, ss, cur, acc =>
    let t := pyStrip text
    if t.isEmpty then edGo rest (idx + 1) ss cur acc
    else if (is_header_line text && !bulletMatch t && decide (ss + 2 < idx) &&
        majorHeaderMatch t && decide ((pySplitWs t).length ≤ 5)) = true then
      if cur.isEmpty then acc else acc ++ [cur]
    else
      if (eduEntryStart cur t && !cur.isEmpty) = true then
        edGo rest (idx + 1) ss [(locator, text)] (acc ++ [cur])
      else
        edGo rest (idx + 1) ss (cur ++ [(locator, text)]) acc

/-- Embedding of `_group_education_entries`. -/
def group_education_entries (lines : List Line) (section_start : Nat) :
    List (List Line) :=
  edGo (lines.drop (section_start + 1)) (section_start + 1) section_start [] []

/-- Helper: on a bullet line the experience decision chain never starts a
new entry and leaves the cached H2 header unchanged. -/
theorem expEntryStart_bullet (cur : List Line) (lastH2 : Option Line)
    (locator text t : Str) (hb : bulletMatch t = true) :
    expEntryStart cur lastH2 locator text t = (false, lastH2) := by
  rw [expEntryStart, if_pos hb]

/-- Helper: the cached H2 header produced by the decision chain is the old
cache, cleared, or the current line. -/
theorem expEntryStart_snd_cases (cur : List Line) (lastH2 : Option Line)
    (locator text t : Str) :
    (expEntryStart cur lastH2 locator text t).2 = lastH2 ∨
    (expEntryStart cur lastH2 locator text t).2 = none ∨
    (expEntryStart cur lastH2 locator text t).2 = some (locator, text) := by
  rw [expEntryStart]
  repeat' split
  all_goals simp

/-- Helper: a fired decision chain implies the line is not a bullet. -/
theorem expEntryStart_fst_not_bullet (cur : List Line) (lastH2 : Option Line)
    (locator text t : Str)
    (h : (expEntryStart cur lastH2 locator text t).1 = true) :
    bulletMatch t = false := by
  cases hb : bulletMatch t
  · rfl
  · rw [expEntryStart_bullet cur lastH2 locator text t hb] at h
    exact absurd h (by simp)

/-- Helper: the non-bullet-head property of a block list extended by one
block. -/
theorem drop_one_append {α : Type} (acc : List α) (x : α) (P : α → Prop)
    (h1 : ∀ b ∈ acc.drop 1, P b) (h2 : acc ≠ [] → P x) :
    ∀ b ∈ (acc ++ [x]).drop 1, P b := by
  cases acc with
  | nil => simp
  | cons a as =>
    intro b hb
    simp only [List.cons_append, List.drop_succ_cons, List.drop_zero] at hb ⊢
    rcases List.mem_append.mp hb with h | h
    · exact h1 b (by simpa using h)
    · rw [List.mem_singleton.mp h]
      exact h2 (by simp)

/-- Invariant lemma for the experience grouper: given that every closed
block after the first starts with a non-bullet line, that the open entry
starts with a non-bullet line whenever a block is already closed, and that
the cached H2 header is not a bullet line, every block after the first in
the final result starts with a non-bullet line. -/
theorem geGo_tail_not_bullet :
    ∀ (rem : List Line) (idx ss : Nat) (cur : List Line)
      (lastH2 : Option Line) (acc : List (List Line)),
      (∀ b ∈ acc.drop 1, ∃ l ls, b = l :: ls ∧ bulletMatch (pyStrip l.2) = false) →
      (acc ≠ [] → ∃ l ls, cur = l :: ls ∧ bulletMatch (pyStrip l.2) = false) →
      (∀ h2, lastH2 = some h2 → bulletMatch (pyStrip h2.2) = false) →
      ∀ b ∈ (geGo rem idx ss cur lastH2 acc).drop 1,
        ∃ l ls, b = l :: ls ∧ bulletMatch (pyStrip l.2) = false := by
  intro rem
  induction rem with
  | nil =>
    intro idx ss cur lastH2 acc hacc hcur _
    rw [geGo]
    split
    · exact hacc
    · exact drop_one_append acc cur _ hacc (fun hne => hcur hne)
  | cons lt rest ih =>
    intro idx ss cur lastH2 acc hacc hcur hh2
    obtain ⟨locator, text⟩ := lt
    rw [geGo]
    split
    · exact ih (idx + 1) ss cur lastH2 acc hacc hcur hh2
    · split
      · split
        · exact hacc
        · exact drop_one_append acc cur _ hacc (fun hne => hcur hne)
      · rcases hep : expEntryStart cur lastH2 locator text (pyStrip text)
          with ⟨isNew, lastH2'⟩
        simp only [hep]
        have hsnd : ∀ h2, lastH2' = some h2 → bulletMatch (pyStrip h2.2) = false := by
          intro h2 hh
          rcases expEntryStart_snd_cases cur lastH2 locator text (pyStrip text)
            with hc | hc | hc <;> rw [hep] at hc <;> simp only [Prod.snd] at hc
          · exact hh2 h2 (hc ▸ hh)
          · rw [hc] at hh; exact Option.noConfusion hh
          · rw [hc] at hh
            injection hh with hh
            subst hh
            rcases Bool.eq_false_or_eq_true (bulletMatch (pyStrip text))
              with hbt | hbt
            · have heq := expEntryStart_bullet cur lastH2 locator text
                (pyStrip text) hbt
              rw [heq] at hep
              injection hep with h1 h2x
              exact hh2 (locator, text) (h2x.symm ▸ hc)
            · exact hbt
        split
        · rename_i hcut
          have hnew : isNew = true := by
            cases hn : isNew
            · rw [hn] at hcut; simp at hcut
            · rfl
          have hne : bulletMatch (pyStrip text) = false := by
            apply expEntryStart_fst_not_bullet cur lastH2 locator text
            rw [hep, hnew]
          have hacc' : ∀ b ∈ (acc ++ [cur]).drop 1,
              ∃ l ls, b = l :: ls ∧ bulletMatch (pyStrip l.2) = false :=
            drop_one_append acc cur _ hacc (fun h => hcur h)
          split
          · split
            · exact ih (idx + 1) ss _ _ (acc ++ [cur]) hacc'
                (fun _ => ⟨_, _, rfl, hsnd _ rfl⟩) hsnd
            · exact ih (idx + 1) ss _ _ (acc ++ [cur]) hacc'
                (fun _ => ⟨(locator, text), _, rfl, hne⟩) hsnd
          · refine ih (idx + 1) ss _ _ (acc ++ [cur]) hacc'
              (fun _ => ⟨(locator, text), _, rfl, hne⟩) ?_
            intro h2 hh
            split at hh
            · injection hh with hh
              subst hh
              exact hne
            · exact Option.noConfusion hh
        · rename_i hcut
          refine ih (idx + 1) ss (cur ++ [(locator, text)]) lastH2' acc hacc
            ?_ hsnd
          intro hne
          obtain ⟨l, ls, hc, hl⟩ := hcur hne
          exact ⟨l, ls ++ [(locator, text)], by rw [hc]; simp, hl⟩

/-- C3 (amended): in the experience grouper a bullet line never triggers a
new-entry boundary — every produced block except possibly the first begins
with a line whose stripped text does not match the bullet pattern.  (The
guarantee does not extend to the first block, whose head may be a bullet
when the section's first content line is one, nor to the education grouper,
whose keyword anchors can fire on bullet lines.) -/
theorem c3_bullet_guard_amended (lines : List Line) (section_start : Nat) :
    ∀ b ∈ (group_experience_entries lines section_start).drop 1,
      ∃ l ls, b = l :: ls ∧ bulletMatch (pyStrip l.2) = false := by
  apply geGo_tail_not_bullet
  · simp
  · simp
  · simp

/-- Witness for C3 at a concrete input: two single-line entries under an
EXPERIENCE header produce two blocks, and the second block starts with a
non-bullet line as the amended claim states. -/
theorem c3_bullet_guard_witness :
    [(S "t:2", S "OTHER CORP: DIRECTOR: LA")] ∈
      (group_experience_entries
        [(S "t:0", S "EXPERIENCE"), (S "t:1", S "ACME CORP: MANAGER: NYC"),
          (S "t:2", S "OTHER CORP: DIRECTOR: LA")] 0).drop 1 ∧
    ∃ l ls, [(S "t:2", S "OTHER CORP: DIRECTOR: LA")] = l :: ls ∧
      bulletMatch (pyStrip l.2) = false := by
  constructor
  · decide
  · exact c3_bullet_guard_amended
      [(S "t:0", S "EXPERIENCE"), (S "t:1", S "ACME CORP: MANAGER: NYC"),
        (S "t:2", S "OTHER CORP: DIRECTOR: LA")] 0
      [(S "t:2", S "OTHER CORP: DIRECTOR: LA")] (by decide)

/-- C3 (counterexample): a bullet line can be the first line of a produced
entry block.  In the education grouper a bullet containing an institution
keyword starts a fresh block, and in the experience grouper the first block
can begin with a bullet when the first content line after the section header
is one. -/
theorem c3_bullet_first_line_counterexample :
    group_education_entries
      [(S "t:0", S "EDUCATION"), (S "t:1", S "Gonzaga University"),
        (S "t:2", S "● Harvard University Exchange")] 0 =
      [[(S "t:1", S "Gonzaga University")],
        [(S "t:2", S "● Harvard University Exchange")]] ∧
    bulletMatch (pyStrip (S "● Harvard University Exchange")) = true ∧
    group_experience_entries
      [(S "t:0", S "EXPERIENCE"), (S "t:1", S "● Led a team of five")] 0 =
      [[(S "t:1", S "● Led a team of five")]] ∧
    bulletMatch (pyStrip (S "● Led a team of five")) = true := by
  refine ⟨by decide, by decide, by decide, by decide⟩

/-- C5 (code bug evidence): `normalize_pdf_wordbreaks` glues the single
spaces between lowercase letters of the scenario's degree line, turning
`Bachelor of Science in Communication Studies` into
`Bachelorof Sciencein Communication Studies` — contradicting the function's
own docstring example, which says that line is returned unchanged — and
consequently `extract_degree_from_text` can only find the bare keyword
`Bachelor` instead of `Bachelor of Science` on the scenario block. -/
theorem c5_wordbreak_degree_bug :
    normalize_pdf_wordbreaks (S "Bachelor of Science in Communication Studies") =
      S "Bachelorof Sciencein Communication Studies" ∧
    extract_degree_from_text (S "Bachelor of Science in Communication Studies") =
      some (S "Bachelor") ∧
    extract_degree_from_text
      (S "GONZAGA UNIVERSITY Spokane, Washington 2012 – 2016 Bachelorof Sciencein Communication Studies ● Applied Communications Major: Social Media/Marketing") =
      some (S "Bachelor") := by
  refine ⟨by decide, by decide, by decide⟩

/-! ## Reclassification and final education assembly
(`parse_lines_to_response`, reclassification pass, merge and dedup)

The stage takes the results of the extraction stages — whether an education
section header was detected, the education entries parsed from the section
and the fallback scan, and the parsed experience dictionaries — and mirrors
the final routing: the experience-to-education reclassification gated on an
empty education list, the merge, the keyed deduplication, and the two
warnings this code appends.  `convert_experience_to_education` calls
`title.lower()` on a `job_title` that may be `None`; that Python crash is
modelled as `none`. -/

/-- Education record (`schemas.EducationEntry`). -/
structure EducationEntry where
  institution : Option Str := none
  degree : Option Str := none
  field_of_study : Option Str := none
  location : Option Str := none
  start_date : Option Str := none
  end_date : Option Str := none
  gpa : Option Str := none
  details : List Str := []
deriving DecidableEq, Repr

/-- Experience dictionary produced by `_parse_experience_entry`. -/
structure Experience where
  company : Option Str := none
  job_title : Option Str := none
  location : Option Str := none
  start_date : Option Str := none
  end_date : Option Str := none
  company_description : Option Str := none
  job_description : Option Str := none
  achievements : List Str := []
deriving DecidableEq, Repr

/-- Degree keywords of the local `looks_like_education_entry` of
`parse_lines_to_response`. -/
def reclassifyDegreeTerms : List Str :=
  [S "bachelor", S "master", S "associate", S "phd", S "ph.d", S "doctorate",
   S "b.s.", S "b.a.", S "m.s.", S "m.a.", S "m.b.a.", S "b.sc", S "m.sc",
   S "undergraduate", S "graduate", S "diploma"]

/-- Institution keywords of the local `looks_like_education_entry`. -/
def reclassifyInstitutionTerms : List Str :=
  [S "university", S "college", S "institute", S "academy", S "high school",
   S "school", S "polytechnic"]

/-- Study-abroad keywords of the local `looks_like_education_entry`. -/
def reclassifyStudyAbroadTerms : List Str :=
  [S "study abroad", S "dis study", S "isa study", S "semester abroad",
   S "exchange program"]

/-- Embedding of the local `looks_like_education_entry`: a strong education
keyword occurs in the lowercased company, job title and location text. -/
def looks_like_education_entry (exp : Experience) : Bool :=
  let text := pyLower (orEmpty exp.company) ++ [' '] ++
    pyLower (orEmpty exp.job_title) ++ [' '] ++ pyLower (orEmpty exp.location)
  reclassifyDegreeTerms.any (fun k => strContains text k) ||
    reclassifyInstitutionTerms.any (fun k => strContains text k) ||
    reclassifyStudyAbroadTerms.any (fun k => strContains text k)

/-- Embedding of `convert_experience_to_education`.  The Python code calls
`title.lower()` where `title` is `exp.get("job_title", "")`; when the parsed
entry has `job_title = None` this raises, modelled as `none`. -/
def convert_experience_to_education (exp : Experience) : Option EducationEntry :=
  match exp.job_title with
  | none => none
  | some title =>
    let title_lower := pyLower title
    let degree : Option Str :=
      if [S "bachelor", S "b.s.", S "b.a.", S "b.sc"].any
          (fun k => strContains title_lower k) then some title
      else if [S "master", S "m.s.", S "m.a.", S "m.b.a.", S "m.sc"].any
          (fun k => strContains title_lower k) then some title
      else if [S "associate", S "a.a.", S "a.s."].any
          (fun k => strContains title_lower k) then some title
      else if [S "ph.d", S "phd", S "doctorate"].any
          (fun k => strContains title_lower k) then some title
      else none
    let field_of_study : Option Str :=
      if degree.isNone && strContains title_lower (S "major") then
        some (pyStrip (replaceAll (replaceAll title (S "Major") []) (S "major") []))
      else none
    some { institution := exp.company, degree := degree,
           field_of_study := field_of_study, location := exp.location,
           start_date := exp.start_date, end_date := exp.end_date,
           gpa := none, details := exp.achievements }

/-- Loop worker of `split_experience_and_education`: route each experience
either to the kept list or, when it looks like education, through the
converter (propagating a converter crash). -/
def splitGo : List Experience → List Experience → List EducationEntry →
    Option (List Experience × List EducationEntry)
  | [], te, re => some (te, re)
  | exp :: rest, te, re =>
    if looks_like_education_entry exp then
      match convert_experience_to_education exp with
      | none => none
      | some e => splitGo rest te (re ++ [e])
    else
      splitGo rest (te ++ [exp]) re

/-- Embedding of `split_experience_and_education`. -/
def split_experience_and_education (experiences : List Experience) :
    Option (List Experience × List EducationEntry) :=
  splitGo experiences [] []

/-- Dedup key of the final education merge: `(institution or "",
degree or "")`. -/
def eduKey (e : EducationEntry) : Str × Str :=
  (orEmpty e.institution, orEmpty e.degree)

/-- Population score used by the dedup replacement rule. -/
def eduScore (e : EducationEntry) : Nat :=
  (if optTruthy e.field_of_study then 1 else 0) +
    (if optTruthy e.start_date then 1 else 0) +
    (if optTruthy e.end_date then 1 else 0) + e.details.length

/-- Replace the first occurrence of `old` in a list (Python
`lst[lst.index(old)] = new`). -/
def listReplaceFirst : List EducationEntry → EducationEntry → EducationEntry →
    List EducationEntry
  | [], _, _ => []
  | x :: rest, old, new =>
    if x = old then new :: rest else x :: listReplaceFirst rest old new

/-- Update the value stored under a key in the seen-map. -/
def seenSet (seen : List ((Str × Str) × EducationEntry)) (key : Str × Str)
    (e : EducationEntry) : List ((Str × Str) × EducationEntry) :=
  seen.map (fun kv => if kv.1 = key then (key, e) else kv)

/-- Loop worker of the final education deduplication: keep the first entry
per key (dropping entries with neither institution nor degree), replacing a
kept entry when a later one with the same key scores strictly better. -/
def dedupGo : List EducationEntry → List ((Str × Str) × EducationEntry) →
    List EducationEntry → List EducationEntry
  | [], _, unique => unique
  | edu :: rest, seen, unique =>
    match seen.find? (fun kv => kv.1 = eduKey edu) with
    | none =>
      if optTruthy edu.institution || optTruthy edu.degree then
        dedupGo rest (seen ++ [(eduKey edu, edu)]) (unique ++ [edu])
      else
        dedupGo rest seen unique
    | some kv =>
      if eduScore kv.2 < eduScore edu then
        dedupGo rest (seenSet seen (eduKey edu) edu)
          (listReplaceFirst unique kv.2 edu)
      else
        dedupGo rest seen unique

/-- The final education deduplication of `parse_lines_to_response`. -/
def dedupEducation (entries : List EducationEntry) : List EducationEntry :=
  dedupGo entries [] []

/-- Embedding of the final routing of `parse_lines_to_response`
(guardrail warning, reclassification gated on an empty education list, merge
with the reclassified entries, deduplication, and the no-education warning).
Returns the final experiences, the final education list and the warnings
this code appends; `none` models the converter crash aborting the parse. -/
def finalize_profile (edu_section_found : Bool)
    (educations : List EducationEntry) (experiences : List Experience) :
    Option (List Experience × List EducationEntry × List Str) :=
  let warnings1 : List Str :=
    if edu_section_found && educations.isEmpty then
      [S "EDUCATION header found but no education entries parsed"]
    else []
  match
    (if educations.isEmpty then
      split_experience_and_education experiences
    else
      some (experiences, []))
  with
  | none => none
  | some (finalExps, reclassified) =>
    let unique := dedupEducation (educations ++ reclassified)
    let warnings2 :=
      if unique.isEmpty then
        warnings1 ++ [S "No education entries detected in resume"]
      else warnings1
    some (finalExps, unique, warnings2)

/-- Helper: `orEmpty` is empty exactly when the option is falsy. -/
theorem optTruthy_of_orEmpty_ne {s : Option Str} (h : ¬ orEmpty s = []) :
    optTruthy s = true := by
  cases s with
  | none => exact absurd rfl h
  | some v =>
    simp only [orEmpty, Option.getD] at h
    simp [optTruthy, h]

/-- Helper: members of a list after a first-occurrence replacement are old
members or the replacement. -/
theorem listReplaceFirst_mem {l : List EducationEntry}
    {old new x : EducationEntry} (h : x ∈ listReplaceFirst l old new) :
    x ∈ l ∨ x = new := by
  induction l with
  | nil => simp [listReplaceFirst] at h
  | cons y rest ih =>
    rw [listReplaceFirst] at h
    split at h
    · rcases List.mem_cons.mp h with h | h
      · right; exact h
      · left; exact List.mem_cons_of_mem _ h
    · rcases List.mem_cons.mp h with h | h
      · left; rw [h]; exact List.mem_cons_self _ _
      · rcases ih h with h' | h'
        · left; exact List.mem_cons_of_mem _ h'
        · right; exact h'

/-- Invariant of the dedup fold: when every kept entry and every seen key
has institution or degree, the final list keeps that property. -/
theorem dedupGo_truthy :
    ∀ (rest : List EducationEntry) (seen : List ((Str × Str) × EducationEntry))
      (unique : List EducationEntry),
      (∀ e ∈ unique, optTruthy e.institution = true ∨ optTruthy e.degree = true) →
      (∀ kv ∈ seen, ¬ kv.1 = (([] : Str), ([] : Str))) →
      ∀ e ∈ dedupGo rest seen unique,
        optTruthy e.institution = true ∨ optTruthy e.degree = true := by
  intro rest
  induction rest with
  | nil => intro seen unique hu _ e he; exact hu e he
  | cons edu rrest ih =>
    intro seen unique hu hs e he
    rw [dedupGo] at he
    cases hf : seen.find? (fun kv => kv.1 = eduKey edu) with
    | none =>
      rw [hf] at he
      simp only [] at he
      split at he
      · rename_i htr
        refine ih _ _ ?_ ?_ e he
        · intro x hx
          rcases List.mem_append.mp hx with hx | hx
          · exact hu x hx
          · rw [List.mem_singleton.mp hx]
            rcases Bool.or_eq_true_iff.mp htr with h | h
            · exact Or.inl h
            · exact Or.inr h
        · intro kv hkv
          rcases List.mem_append.mp hkv with hkv | hkv
          · exact hs kv hkv
          · rw [List.mem_singleton.mp hkv]
            intro hkey
            rcases Bool.or_eq_true_iff.mp (by assumption :
                (optTruthy edu.institution || optTruthy edu.degree) = true)
              with h | h
            · have : orEmpty edu.institution = [] := congrArg Prod.fst hkey
              cases hin : edu.institution with
              | none => rw [hin] at h; simp [optTruthy] at h
              | some v =>
                rw [hin] at this h
                simp only [orEmpty, Option.getD] at this
                simp [optTruthy, this] at h
            · have : orEmpty edu.degree = [] := congrArg Prod.snd hkey
              cases hin : edu.degree with
              | none => rw [hin] at h; simp [optTruthy] at h
              | some v =>
                rw [hin] at this h
                simp only [orEmpty, Option.getD] at this
                simp [optTruthy, this] at h
      · exact ih _ _ hu hs e he
    | some kv =>
      rw [hf] at he
      simp only [] at he
      have hkv_mem := List.mem_of_find?_eq_some hf
      have hkv_key : kv.1 = eduKey edu := by
        have := List.find?_some hf
        simpa using this
      have hedu : optTruthy edu.institution = true ∨ optTruthy edu.degree = true := by
        have hne : ¬ eduKey edu = (([] : Str), ([] : Str)) :=
          hkv_key ▸ hs kv hkv_mem
        by_cases hi : orEmpty edu.institution = []
        · by_cases hd : orEmpty edu.degree = []
          · exact absurd (by rw [eduKey, hi, hd]) hne
          · exact Or.inr (optTruthy_of_orEmpty_ne hd)
        · exact Or.inl (optTruthy_of_orEmpty_ne hi)
      split at he
      · refine ih _ _ ?_ ?_ e he
        · intro x hx
          rcases listReplaceFirst_mem hx with hx | hx
          · exact hu x hx
          · rw [hx]; exact hedu
        · intro kv' hkv'
          rcases List.mem_map.mp hkv' with ⟨kv0, hkv0, hkv0e⟩
          rw [← hkv0e]
          by_cases hc : kv0.1 = eduKey edu
          · rw [if_pos hc]
            intro hx
            exact hs kv hkv_mem (hkv_key.trans hx)
          · rw [if_neg hc]
            exact hs kv0 hkv0
      · exact ih _ _ hu hs e he

/-- Helper: members of the kept-experience output of the split are inputs
that do not look like education. -/
theorem splitGo_no_education :
    ∀ (rest te : List Experience) (re : List EducationEntry)
      (out : List Experience × List EducationEntry),
      (∀ x ∈ te, looks_like_education_entry x = false) →
      splitGo rest te re = some out →
      ∀ x ∈ out.1, looks_like_education_entry x = false := by
  intro rest
  induction rest with
  | nil =>
    intro te re out hte h
    rw [splitGo] at h
    injection h with h
    rw [← h]
    exact hte
  | cons exp rrest ih =>
    intro te re out hte h
    rw [splitGo] at h
    split at h
    · cases hc : convert_experience_to_education exp with
      | none => rw [hc] at h; exact Option.noConfusion h
      | some e => rw [hc] at h; exact ih te _ out hte h
    · rename_i hlk
      refine ih (te ++ [exp]) re out ?_ h
      intro x hx
      rcases List.mem_append.mp hx with hx | hx
      · exact hte x hx
      · rw [List.mem_singleton.mp hx]
        simp only [Bool.not_eq_true] at hlk
        exact hlk

/-- C1 (amended): whenever the final routing completes, every entry of the
final education list has a nonempty institution or a nonempty degree; and
whenever the reclassification pass actually ran — that is, education parsing
produced no entries — no surviving experience exhibits a strong education
keyword in its company, job title and location text.  (When education
entries were parsed the pass is skipped and experiences may keep education
keywords.) -/
theorem c1_disjointness_amended (found : Bool)
    (educations : List EducationEntry) (experiences exps : List Experience)
    (edus : List EducationEntry) (ws : List Str)
    (h : finalize_profile found educations experiences = some (exps, edus, ws)) :
    (∀ e ∈ edus, optTruthy e.institution = true ∨ optTruthy e.degree = true) ∧
    (educations = [] → ∀ x ∈ exps, looks_like_education_entry x = false) := by
  rw [finalize_profile] at h
  cases hg : (if educations.isEmpty then
      split_experience_and_education experiences
    else some (experiences, [])) with
  | none => rw [hg] at h; exact Option.noConfusion h
  | some pr =>
    obtain ⟨finalExps, reclassified⟩ := pr
    rw [hg] at h
    simp only [] at h
    injection h with h
    injection h with h1 h
    injection h with h2 h3
    constructor
    · intro e he
      rw [← h2] at he
      exact dedupGo_truthy _ [] [] (by simp) (by simp) e he
    · intro hemp x hx
      rw [← h1] at hx
      rw [hemp] at hg
      simp only [List.isEmpty_nil, if_true] at hg
      rw [split_experience_and_education] at hg
      exact splitGo_no_education experiences [] [] (finalExps, reclassified)
        (by simp) hg x hx

/-- A concrete experience entry whose company carries an institution
keyword. -/
def harvardExp : Experience :=
  { company := some (S "Harvard University"), job_title := some (S "Lecturer"),
    location := some (S "Cambridge, MA") }

/-- A concrete parsed education entry. -/
def gonzagaEdu : EducationEntry :=
  { institution := some (S "Gonzaga University"),
    degree := some (S "Bachelor of Science") }

/-- A concrete experience entry with no education signal. -/
def acmeExp : Experience :=
  { company := some (S "Acme Corp"), job_title := some (S "Manager") }

/-- Witness for C1 at concrete inputs: with no parsed education entries the
routing completes, the education list keeps the institution-or-degree
property, and the reclassification leaves only keyword-free experiences. -/
theorem c1_disjointness_witness :
    (∀ e ∈ [EducationEntry.mk (some (S "Harvard University")) none none
        (some (S "Cambridge, MA")) none none none []],
      optTruthy e.institution = true ∨ optTruthy e.degree = true) ∧
    (([] : List EducationEntry) = [] →
      ∀ x ∈ [acmeExp], looks_like_education_entry x = false) := by
  have h := c1_disjointness_amended false [] [acmeExp, harvardExp] [acmeExp]
    [EducationEntry.mk (some (S "Harvard University")) none none
      (some (S "Cambridge, MA")) none none none []] []
    (by decide)
  exact h

/-- C1 (counterexample): when education entries were parsed the
reclassification pass is skipped, so an experience whose company contains
`University` survives in the final experiences — the claimed keyword-freedom
does not hold for every input. -/
theorem c1_disjointness_counterexample :
    finalize_profile false [gonzagaEdu] [harvardExp] =
      some ([harvardExp], [gonzagaEdu], []) ∧
    looks_like_education_entry harvardExp = true := by
  refine ⟨by decide, by decide⟩

/-- C2 (amended): the reclassification pass runs exactly when education
parsing (section parse plus fallback scan) produced zero entries; whenever
at least one education entry was parsed, the experiences list is returned
unmodified — but the presence of an education section header alone does not
prevent reclassification. -/
theorem c2_reclassification_gate_amended (found : Bool)
    (educations : List EducationEntry) (experiences : List Experience)
    (hne : educations ≠ []) :
    ∃ edus ws, finalize_profile found educations experiences =
      some (experiences, edus, ws) := by
  rw [finalize_profile]
  have hemp : educations.isEmpty = false := by
    cases educations with
    | nil => exact absurd rfl hne
    | cons a l => rfl
  rw [hemp]
  simp only [Bool.false_eq_true, if_false]
  exact ⟨_, _, rfl⟩

/-- Witness for C2 at concrete inputs: with one parsed education entry the
experiences come back unmodified even though they carry education
keywords. -/
theorem c2_reclassification_gate_witness :
    ∃ edus ws, finalize_profile true [gonzagaEdu] [harvardExp] =
      some ([harvardExp], edus, ws) :=
  c2_reclassification_gate_amended true [gonzagaEdu] [harvardExp] (by decide)

/-- C2 (counterexample): with an education section header present but zero
parsed education entries, the reclassification pass still runs and moves a
keyword-bearing experience out of the experiences list — the header alone
does not make the pass a no-op. -/
theorem c2_reclassification_gate_counterexample :
    finalize_profile true [] [harvardExp] =
      some ([],
        [EducationEntry.mk (some (S "Harvard University")) none none
          (some (S "Cambridge, MA")) none none none []],
        [S "EDUCATION header found but no education entries parsed"]) ∧
    ([] : List Experience) ≠ [harvardExp] := by
  refine ⟨by decide, by decide⟩

/-! ## Multi-strategy achievement repair
(`_normalize_achievement_intelligently`, `_detect_corruption_type`,
`_score_text_quality`)

The corruption-type detector and the quality scorer are embedded in full
(float ratios become cross-multiplied integer comparisons; character
classes are the ASCII ranges the inputs use).  The four repair strategies
are closures over the heavy segmentation machinery whose internals the
claim does not depend on: they are taken as function parameters of type
`Str → Option Str`, with `none` modelling an exception raised inside the
strategy — the `try/except` skip, the score-based selection and the
fallback are embedded exactly. -/

/-- Corruption classes returned by `_detect_corruption_type`. -/
inductive CorruptionType where
  | character_fragmentation
  | completely_glued
  | mixed_corruption
  | mostly_ok
deriving DecidableEq, Repr

/-- Count of non-overlapping matches of `[a-z]\x7b2,\x7d[A-Z]`: a maximal
lowercase run of length at least two followed by an uppercase letter. -/
def gluedCountGo : Str → Nat → Nat
  | [], _ => 0
  | c :: rest, run =>
    if isLowerAZ c then gluedCountGo rest (run + 1)
    else if isUpperAZ c && decide (2 ≤ run) then 1 + gluedCountGo rest 0
    else gluedCountGo rest 0

/-- Embedding of `_detect_corruption_type`. -/
def detect_corruption_type (text : Str) : CorruptionType :=
  if text.length < 5 then .mostly_ok
  else
    let words := pySplitWs text
    if words.isEmpty then .mostly_ok
    else
      let spaces := (text.filter (fun c => c == ' ')).length
      let sumLen := (words.map List.length).sum
      let long_words := words.filter
        (fun w => decide (10 < w.length) && !(w.drop 1).any isUpperAZ)
      if 5 * spaces > text.length ∧ 2 * sumLen < 7 * words.length then
        .character_fragmentation
      else if (words.length < 5 ∧ 25 < text.length) ∨ 0 < gluedCountGo text 0 then
        .completely_glued
      else if strContains text (S "  ") ∧ words.any (fun w => w.length < 2) then
        .mixed_corruption
      else if ¬ long_words.isEmpty ∧ words.length < 6 then
        .completely_glued
      else .mostly_ok

/-- Achievement vocabulary rewarded by `_score_text_quality`. -/
def achievementWords : List Str :=
  [S "acquired", S "grew", S "led", S "built", S "improved", S "increased",
   S "achieved", S "won", S "developed", S "created", S "managed",
   S "exceeded", S "delivered", S "customers", S "revenue", S "sales",
   S "growth", S "team", S "business"]

/-- Short words exempt from the too-short penalty. -/
def shortWordExemptions : List Str :=
  [S "a", S "to", S "in", S "at", S "by", S "of"]

/-- Embedding of `_score_text_quality` over exact integers (the Python
score only ever holds integer values; ratio tests are cross-multiplied). -/
def score_text_quality (original normalized : Str) : ℤ :=
  let words := pySplitWs normalized
  if words.isEmpty then 0
  else
    let singles := (words.filter
      (fun w => decide (w.length = 1) && w.all isAlphaAZ)).length
    let shorts := (words.filter (fun w => decide (w.length ≤ 2) &&
      !(shortWordExemptions.contains (pyLower w)))).length
    let sumLen := (words.map List.length).sum
    let n := words.length
    let s1 : ℤ := 100 - 15 * singles - 3 * shorts
    let s2 : ℤ :=
      if 5 * n ≤ sumLen ∧ sumLen ≤ 10 * n then s1 + 15
      else if 3 * n ≤ sumLen ∧ sumLen ≤ 12 * n then s1 + 5
      else s1 - 10
    let spaces := (normalized.filter (fun c => c == ' ')).length
    let s3 : ℤ := if 4 * spaces > normalized.length then s2 - 20 else s2
    let found := (words.filter
      (fun w => achievementWords.contains (pyLower w))).length
    let s4 : ℤ := s3 + 8 * found
    let s5 : ℤ :=
      if 10 * normalized.length < 7 * original.length then s4 - 25 else s4
    let s6 : ℤ :=
      if 10 * ((normalized.length : ℤ) - original.length).natAbs <
          original.length then s5 + 10
      else s5
    max 0 s6

/-- Strategy list per corruption type (the insertion order of the Python
strategies dict). -/
def strategiesFor (ct : CorruptionType)
    (full_pipeline conservative_fix aggressive_segment direct_segmentation :
      Str → Option Str) : List (Str → Option Str) :=
  match ct with
  | .character_fragmentation => [conservative_fix, full_pipeline]
  | .completely_glued =>
    [direct_segmentation, aggressive_segment, full_pipeline]
  | .mixed_corruption => [full_pipeline, aggressive_segment]
  | .mostly_ok => [conservative_fix, full_pipeline]

/-- The strategy loop: run each strategy on the text, skip the ones that
raise, and pair each result with its quality score. -/
def tryStrategies (text : Str) : List (Str → Option Str) → List (Str × ℤ)
  | [] => []
  | f :: rest =>
    match f text with
    | none => tryStrategies text rest
    | some r => (r, score_text_quality text r) :: tryStrategies text rest

/-- First-maximum selection, as Python `max` with a key: a later result
replaces the current best only when its score is strictly greater. -/
def bestGo : List (Str × ℤ) → Str → ℤ → Str
  | [], best, _ => best
  | (r, s) :: rest, best, bs =>
    if bs < s then bestGo rest r s else bestGo rest best bs

/-- `max(results.items(), ...)` over the collected results; `none` when no
strategy produced a result. -/
def bestByScore : List (Str × ℤ) → Option Str
  | [] => none
  | (r, s) :: rest => some (bestGo rest r s)

/-- Embedding of `_normalize_achievement_intelligently`: strip, early
return for short text, detect the corruption type, run the selected
strategies skipping the ones that raise, and return the best-scoring
result — or the stripped text when no strategy produced a result. -/
def normalize_achievement_intelligently
    (full_pipeline conservative_fix aggressive_segment direct_segmentation :
      Str → Option Str) (text : Str) : Str :=
  if (pyStrip text).isEmpty || (pyStrip text).length < 5 then pyStrip text
  else
    match bestByScore (tryStrategies (pyStrip text)
        (strategiesFor (detect_corruption_type (pyStrip text))
          full_pipeline conservative_fix aggressive_segment
          direct_segmentation)) with
    | none => pyStrip text
    | some r => r

/-- C7 (amended): the repair is a total function — a strategy that raises
(modelled by `none`) is skipped — and when every selected strategy fails
the function returns the stripped input `text.strip()`, which differs from
the original input when it carries leading or trailing whitespace. -/
theorem c7_repair_fallback_amended
    (full_pipeline conservative_fix aggressive_segment direct_segmentation :
      Str → Option Str) (text : Str)
    (h1 : full_pipeline (pyStrip text) = none)
    (h2 : conservative_fix (pyStrip text) = none)
    (h3 : aggressive_segment (pyStrip text) = none)
    (h4 : direct_segmentation (pyStrip text) = none) :
    normalize_achievement_intelligently full_pipeline conservative_fix
      aggressive_segment direct_segmentation text = pyStrip text := by
  rw [normalize_achievement_intelligently]
  split
  · rfl
  · cases hct : detect_corruption_type (pyStrip text) <;>
      simp [strategiesFor, tryStrategies, bestByScore, h1, h2, h3, h4]

/-- Witness for C7 at a concrete input: with every strategy raising, the
repair still returns (and returns the stripped text). -/
theorem c7_repair_fallback_witness :
    normalize_achievement_intelligently (fun _ => none) (fun _ => none)
      (fun _ => none) (fun _ => none) (S "Exceeded quota") =
      pyStrip (S "Exceeded quota") :=
  c7_repair_fallback_amended _ _ _ _ (S "Exceeded quota") rfl rfl rfl rfl

/-- C7 (counterexample): the function strips the input before anything
else, so when all strategies fail on whitespace-padded text the returned
string is the stripped text, not the original input unchanged. -/
theorem c7_repair_original_counterexample :
    normalize_achievement_intelligently (fun _ => none) (fun _ => none)
      (fun _ => none) (fun _ => none) (S "  Managed a team  ") =
      S "Managed a team" ∧
    (S "Managed a team" : Str) ≠ S "  Managed a team  " :=
  ⟨by decide, by decide⟩

/-! ## Word segmentation
(`_segment_long_word`, `_segment_lowercase_word`, `_greedy_segment`,
`_is_valid_word`, `COMMON_WORDS`)

The Python segmenters are recursive with threaded memo dictionaries.  Each
is embedded as a fuel-driven step interpreter over a small call type: the
recursion tree of the source maps one-to-one onto interpreter calls, fuel
decreases on every call, and running out of fuel returns the distinguished
outer `none` (the inner `Option` is the Python `None` result).  The
termination claim is settled by proving a fuel bound under which the outer
`none` is never reached. -/

/-- The module-level `COMMON_WORDS` set (a Python set: order and duplicate
entries are irrelevant, membership is what matters). -/
def COMMON_WORDS : List Str :=
  [S "a", S "accomplishment", S "account", S "achieve", S "achieved",
   S "achievement", S "achievements", S "acquired", S "agile", S "always",
   S "an", S "analysis", S "analytical", S "and", S "angeles", S "api",
   S "apis", S "application", S "applications", S "april", S "architect",
   S "architecture", S "are", S "as", S "assurance", S "at", S "atlanta",
   S "atmosphere", S "attitude", S "august", S "austin", S "automated",
   S "automation", S "award", S "awards", S "aws", S "azure", S "b2b",
   S "b2c", S "back", S "backend", S "be", S "been", S "benchmark",
   S "benchmarking", S "blitz", S "bold", S "boston", S "boys", S "budget",
   S "budgeting", S "business", S "by", S "can", S "capital", S "case",
   S "cd", S "chain", S "change", S "chicago", S "ci", S "client",
   S "clients", S "closing", S "cloud", S "coaching", S "coast",
   S "collaborate", S "collaboration", S "communication", S "company",
   S "compliance", S "contract", S "corporate", S "corporation",
   S "create", S "created", S "customer", S "database", S "databases",
   S "datadriven", S "december", S "decrease", S "delivery", S "denver",
   S "department", S "deployed", S "deployment", S "design", S "designer",
   S "desktop", S "develop", S "developed", S "development", S "devops",
   S "diego", S "division", S "do", S "docker", S "down", S "downtown",
   S "due", S "effective", S "effectiveness", S "efficiency",
   S "encouraging", S "enterprise", S "expand", S "expansion",
   S "february", S "financial", S "finished", S "for", S "forecast",
   S "forecasting", S "francisco", S "from", S "frontend", S "fullstack",
   S "funding", S "gcp", S "girls", S "goals", S "governance", S "grew",
   S "group", S "grow", S "growth", S "had", S "has", S "have", S "hybrid",
   S "implement", S "implementation", S "implemented", S "improve",
   S "improved", S "in", S "incident", S "increase", S "increased",
   S "infrastructure", S "initiative", S "innovation", S "innovative",
   S "integrated", S "integration", S "investment", S "investor", S "is",
   S "it", S "january", S "july", S "june", S "kanban", S "key", S "kick",
   S "kickstart", S "kpi", S "kpis", S "kubernetes", S "large", S "launch",
   S "launched", S "lead", S "leader", S "leading", S "led", S "logistics",
   S "maintaining", S "maintenance", S "major", S "manage", S "managed",
   S "management", S "manager", S "march", S "market", S "marketing",
   S "may", S "mentored", S "mentoring", S "metrics", S "microservices",
   S "migrated", S "migration", S "mobile", S "modernization", S "month",
   S "national", S "near", S "negotiated", S "negotiation", S "network",
   S "networking", S "new", S "november", S "october", S "of", S "office",
   S "on", S "opened", S "operational", S "operations", S "optimization",
   S "optimized", S "or", S "outperformed", S "over", S "overall",
   S "partner", S "partnership", S "percent", S "performed", S "person",
   S "pipeline", S "plan", S "platform", S "portfolio", S "positive",
   S "premise", S "presentation", S "presentations", S "problem",
   S "process", S "procurement", S "product", S "production",
   S "productivity", S "profit", S "profitability", S "program",
   S "project", S "promoted", S "promotion", S "proposal", S "proposals",
   S "prospecting", S "provide", S "provided", S "q", S "qa", S "quality",
   S "recognition", S "reduced", S "reduction", S "regional",
   S "relations", S "relationship", S "reporting", S "resolution",
   S "responsibilities", S "responsible", S "result", S "results",
   S "return", S "revenue", S "risk", S "roe", S "roi", S "saas",
   S "sales", S "scalability", S "scalable", S "scaled", S "scaling",
   S "scrum", S "seattle", S "security", S "selected", S "september",
   S "server", S "servers", S "service", S "set", S "several", S "smart",
   S "solution", S "solutions", S "solving", S "sourcing", S "staff",
   S "stakeholder", S "stakeholders", S "start", S "startup", S "storage",
   S "strategic", S "strategy", S "streamline", S "streamlined",
   S "strong", S "success", S "successful", S "successfully",
   S "suppliers", S "supply", S "support", S "sustainability",
   S "sustainable", S "system", S "teaching", S "team", S "technical",
   S "technology", S "territory", S "test", S "testing", S "that", S "the",
   S "this", S "through", S "to", S "tone", S "trained", S "training",
   S "transferred", S "troubleshooting", S "ui", S "up", S "ux",
   S "valuation", S "vendor", S "venture", S "volunteer", S "was", S "web",
   S "were", S "west", S "which", S "while", S "who", S "with", S "won",
   S "year", S "york"]

/-- The local `word_starts` set of `_segment_long_word`. -/
def word_starts : List Str :=
  [S "a", S "account", S "accounts", S "acquired", S "an", S "and", S "as",
   S "at", S "attend", S "be", S "blitzes", S "by", S "can", S "close",
   S "country", S "do", S "down", S "due", S "expansion", S "finished",
   S "for", S "get", S "go", S "grew", S "had", S "has", S "have", S "he",
   S "her", S "his", S "how", S "i", S "if", S "in", S "is", S "it",
   S "its", S "key", S "lead", S "led", S "made", S "major", S "make",
   S "may", S "month", S "my", S "national", S "new", S "of", S "on",
   S "opened", S "or", S "our", S "out", S "outperformed", S "over",
   S "performed", S "re", S "relationships", S "selected", S "several",
   S "so", S "some", S "such", S "team", S "territory", S "than", S "that",
   S "the", S "their", S "them", S "then", S "there", S "these", S "they",
   S "this", S "to", S "too", S "transferred", S "under", S "up", S "us",
   S "used", S "very", S "was", S "we", S "were", S "what", S "when",
   S "which", S "who", S "why", S "will", S "with", S "won", S "would",
   S "year", S "yet", S "you", S "your"]

/-- Python slice `word[a:b]`. -/
def strSlice (word : Str) (a b : Nat) : Str := (word.take b).drop a

/-- Python `range(a, b)` as a list. -/
def rangeList (a b : Nat) : List Nat := (List.range (b - a)).map (a + ·)

/-- Prefixes accepted by `_is_valid_word`. -/
def common_prefixes : List Str :=
  [S "un", S "re", S "re", S "pre", S "dis", S "mis", S "over", S "out",
   S "in", S "inter", S "sub", S "super"]

/-- Suffixes accepted by `_is_valid_word`. -/
def common_suffixes : List Str :=
  [S "ed", S "ing", S "er", S "ly", S "tion", S "ment", S "ness",
   S "able", S "ful", S "less", S "ish"]

/-- Short words accepted by `_is_valid_word` below four characters. -/
def validShortWords : List Str :=
  [S "a", S "an", S "to", S "in", S "on", S "at", S "as", S "is", S "it",
   S "be", S "do", S "go", S "up", S "no", S "so", S "or", S "by", S "he",
   S "me", S "we", S "my"]

/-- Membership in `aeiou`. -/
def isVowel (c : Char) : Bool :=
  c == 'a' || c == 'e' || c == 'i' || c == 'o' || c == 'u'

/-- Embedding of `_is_valid_word`. -/
def is_valid_word (word : Str) : Bool :=
  if word.length < 2 then false
  else if COMMON_WORDS.contains word then true
  else if 20 < word.length then false
  else
    let vowels := (word.filter isVowel).length
    if 3 < word.length ∧ vowels < 1 then false
    else if common_prefixes.any (fun p => p.isPrefixOf word) ||
        common_suffixes.any (fun sfx => sfx.isSuffixOf word) then true
    else if word.length ≤ 3 then
      validShortWords.contains word || COMMON_WORDS.contains word
    else if word.length ≤ 8 then decide (max 1 (word.length / 2) ≤ vowels)
    else false

/-- Success-only memo dictionary of the segmenters (keys are indices; a key
is never written twice because recursive calls only visit other indices, so
prepending models Python dict insertion). -/
abbrev SegMemo := List (Nat × List Str)

/-- Memo lookup (`idx in memo` then `memo[idx]`). -/
def memoLookup (m : SegMemo) (idx : Nat) : Option (List Str) :=
  (m.find? (fun kv => kv.1 == idx)).map (·.2)

/-- Memo write (`memo[idx] = v`). -/
def memoInsert (m : SegMemo) (idx : Nat) (v : List Str) : SegMemo :=
  (idx, v) :: m

/-- Call states of the `segment_recursive` interpreter of
`_segment_long_word`: a recursive call, the word-start loop over the
remaining end positions, or the fallback chunk loop. -/
inductive LongCall where
  | seg (idx depth : Nat)
  | ends (idx depth : Nat) (es : List Nat)
  | chunks (idx depth : Nat) (cs : List Nat)

/-- The end positions tried by the word-start loop at `idx`
(`range(idx + 2, min(idx + 12, len(word) + 1))`). -/
def longEnds (word : Str) (idx : Nat) : List Nat :=
  rangeList (idx + 2) (min (idx + 12) (word.length + 1))

/-- Step interpreter for `segment_recursive` of `_segment_long_word`:
depth cap at 100, memo lookup, empty suffix, the word-start loop, the
`[4, 3, 2]` chunk fallback and the take-rest last resort.  The outer `none`
is fuel exhaustion. -/
def segLongRun (word : Str) :
    Nat → LongCall → SegMemo → Option (Option (List Str) × SegMemo)
  | 0, _, _ => none
  | fuel + 1, .seg idx depth, memo =>
    if 100 < depth then some (none, memo)
    else
      match memoLookup memo idx with
      | some v => some (some v, memo)
      | none =>
        if word.length ≤ idx then some (some [], memo)
        else segLongRun word fuel (.ends idx depth (longEnds word idx)) memo
  | fuel + 1, .ends idx depth [], memo =>
    segLongRun word fuel (.chunks idx depth [4, 3, 2]) memo
  | fuel + 1, .ends idx depth (e :: es), memo =>
    if word_starts.contains (strSlice word idx e) ||
        is_valid_word (strSlice word idx e) then
      match segLongRun word fuel (.seg e (depth + 1)) memo with
      | none => none
      | some (some r, m') =>
        some (some (strSlice word idx e :: r),
          memoInsert m' idx (strSlice word idx e :: r))
      | some (none, m') => segLongRun word fuel (.ends idx depth es) m'
    else segLongRun word fuel (.ends idx depth es) memo
  | fuel + 1, .chunks idx depth [], memo =>
    if idx < word.length then some (some [word.drop idx], memo)
    else some (none, memo)
  | fuel + 1, .chunks idx depth (c :: cs), memo =>
    if idx + c ≤ word.length then
      match segLongRun word fuel (.seg (idx + c) (depth + 1)) memo with
      | none => none
      | some (some r, m') =>
        some (some (strSlice word idx (idx + c) :: r),
          memoInsert m' idx (strSlice word idx (idx + c) :: r))
      | some (none, m') => segLongRun word fuel (.chunks idx depth cs) m'
    else segLongRun word fuel (.chunks idx depth cs) memo

/-- Fuel bound for the `_segment_long_word` interpreter, driven by the
explicit depth cap of the source: depth increases on every nested call and
the cap is 100. -/
def needLong : LongCall → Nat
  | .seg _ d => 16 * (102 - d) + 1
  | .ends _ d es => es.length + 5 + 16 * (101 - d)
  | .chunks _ d cs => cs.length + 1 + 16 * (101 - d)

/-- Embedding of `_segment_long_word` (the interpreter is run at the
proven-sufficient fuel `needLong (.seg 0 0)`). -/
def segment_long_word (word : Str) : Str :=
  if word.length ≤ 3 then word
  else
    match segLongRun word (16 * 102 + 1) (.seg 0 0) [] with
    | some (some r, _) => if r.isEmpty then word else joinSpace r
    | some (none, _) => word
    | none => word

/-- Call states of `can_segment_conservative` of `_segment_lowercase_word`:
a recursive call or the start-position loop. -/
inductive ConsCall where
  | seg (idx depth : Nat)
  | loop (idx depth : Nat) (ss : List Nat)

/-- Start positions tried at `idx` (`range(max(0, idx - 12), idx)`). -/
def consStarts (idx : Nat) : List Nat := rangeList (idx - 12) idx

/-- Step interpreter for `can_segment_conservative`: depth cap at 50, memo
lookup, base case `idx == 0`, and the strict dictionary-only loop. -/
def segConsRun (word : Str) :
    Nat → ConsCall → SegMemo → Option (Option (List Str) × SegMemo)
  | 0, _, _ => none
  | fuel + 1, .seg idx depth, memo =>
    if 50 < depth then some (none, memo)
    else
      match memoLookup memo idx with
      | some v => some (some v, memo)
      | none =>
        if idx = 0 then some (some [], memo)
        else segConsRun word fuel (.loop idx depth (consStarts idx)) memo
  | fuel + 1, .loop _ _ [], memo => some (none, memo)
  | fuel + 1, .loop idx depth (s :: ss), memo =>
    if COMMON_WORDS.contains (strSlice word s idx) then
      match segConsRun word fuel (.seg s (depth + 1)) memo with
      | none => none
      | some (some prev, m') =>
        some (some (prev ++ [strSlice word s idx]),
          memoInsert m' idx (prev ++ [strSlice word s idx]))
      | some (none, m') => segConsRun word fuel (.loop idx depth ss) m'
    else segConsRun word fuel (.loop idx depth ss) memo

/-- Fuel bound for the conservative interpreter, driven by its explicit
depth cap of 50. -/
def needCons : ConsCall → Nat
  | .seg _ d => 14 * (52 - d) + 1
  | .loop _ d ss => ss.length + 1 + 14 * (51 - d)

/-- Call states of the uncapped `can_segment` of `_segment_lowercase_word`:
a recursive call, the dictionary loop, then the heuristic loop. -/
inductive UncappedCall where
  | seg (idx : Nat)
  | loopA (idx : Nat) (ls : List Nat)
  | loopB (idx : Nat) (ls : List Nat)

/-- Candidate lengths tried at `idx`, longest first
(`range(min(15, idx), 1, -1)`). -/
def uncappedLens (idx : Nat) : List Nat :=
  (rangeList 2 (min 15 idx + 1)).reverse

/-- Step interpreter for `can_segment`: memo lookup, base case, the
dictionary pass, then the heuristic `_is_valid_word` pass.  The source has
no depth cap here; every candidate length is at least 2, so recursive calls
strictly decrease `idx` by at least 2. -/
def segUncappedRun (word : Str) :
    Nat → UncappedCall → SegMemo → Option (Option (List Str) × SegMemo)
  | 0, _, _ => none
  | fuel + 1, .seg idx, memo =>
    match memoLookup memo idx with
    | some v => some (some v, memo)
    | none =>
      if idx = 0 then some (some [], memo)
      else segUncappedRun word fuel (.loopA idx (uncappedLens idx)) memo
  | fuel + 1, .loopA idx [], memo =>
    segUncappedRun word fuel (.loopB idx (uncappedLens idx)) memo
  | fuel + 1, .loopA idx (l :: ls), memo =>
    if COMMON_WORDS.contains (strSlice word (idx - l) idx) then
      match segUncappedRun word fuel (.seg (idx - l)) memo with
      | none => none
      | some (some prev, m') =>
        some (some (prev ++ [strSlice word (idx - l) idx]),
          memoInsert m' idx (prev ++ [strSlice word (idx - l) idx]))
      | some (none, m') => segUncappedRun word fuel (.loopA idx ls) m'
    else segUncappedRun word fuel (.loopA idx ls) memo
  | fuel + 1, .loopB idx [], memo => some (none, memo)
  | fuel + 1, .loopB idx (l :: ls), memo =>
    if is_valid_word (strSlice word (idx - l) idx) then
      match segUncappedRun word fuel (.seg (idx - l)) memo with
      | none => none
      | some (some prev, m') =>
        some (some (prev ++ [strSlice word (idx - l) idx]),
          memoInsert m' idx (prev ++ [strSlice word (idx - l) idx]))
      | some (none, m') => segUncappedRun word fuel (.loopB idx ls) m'
    else segUncappedRun word fuel (.loopB idx ls) memo

/-- Fuel bound for the uncapped interpreter, driven by the strict descent
of `idx`. -/
def needUncapped : UncappedCall → Nat
  | .seg idx => 31 * idx + 1
  | .loopA idx ls => ls.length + 16 + 31 * (idx - 2)
  | .loopB idx ls => ls.length + 1 + 31 * (idx - 2)

/-- Only calls whose pending candidate lengths are all at least 2 arise
during a run; the bound argument needs this. -/
def uncappedWF : UncappedCall → Prop
  | .seg _ => True
  | .loopA _ ls => ∀ l ∈ ls, 2 ≤ l
  | .loopB _ ls => ∀ l ∈ ls, 2 ≤ l

/-- The j positions tried by one greedy step at `i`, longest first
(`range(min(i + 15, len(word)), i, -1)`). -/
def greedyFind (word : Str) (i : Nat) : Option Nat :=
  ((rangeList (i + 1) (min (i + 15) word.length + 1)).reverse).find?
    (fun j => is_valid_word (strSlice word i j))

/-- The `while` loop of `_greedy_segment`: take the longest valid word at
`i`, else a chunk of `min(3, len(word) - i)` characters.  The outer `none`
is fuel exhaustion. -/
def greedyGo (word : Str) : Nat → Nat → List Str → Option (List Str)
  | 0, _, _ => none
  | fuel + 1, i, acc =>
    if word.length ≤ i then some acc
    else
      match greedyFind word i with
      | some j => greedyGo word fuel j (acc ++ [strSlice word i j])
      | none =>
        greedyGo word fuel (i + min 3 (word.length - i))
          (acc ++ [strSlice word i (i + min 3 (word.length - i))])

/-- Embedding of `_greedy_segment` (run at the proven-sufficient fuel). -/
def greedy_segment (word : Str) : Str :=
  match greedyGo word (word.length + 1) 0 [] with
  | some r => joinSpace r
  | none => word

/-- Two-part split loop of the short-word branch of
`_segment_lowercase_word`. -/
def twoPartSplit (word : Str) : Option Str :=
  (rangeList 2 (word.length - 1)).findSome? (fun i =>
    if COMMON_WORDS.contains (word.take i) &&
        COMMON_WORDS.contains (word.drop i) then
      some (word.take i ++ [' '] ++ word.drop i)
    else none)

/-- Embedding of `_segment_lowercase_word`: short words get at most a
two-part dictionary split, medium words the conservative capped search,
long words the uncapped search with the greedy fallback. -/
def segment_lowercase_word (word : Str) : Str :=
  if word.length ≤ 2 then word
  else if word.contains ' ' then word
  else if word.length ≤ 10 then
    if COMMON_WORDS.contains word then word
    else
      match twoPartSplit word with
      | some r => r
      | none => word
  else if word.length ≤ 15 then
    match segConsRun word (14 * 52 + 1) (.seg word.length 0) [] with
    | some (some segm, _) => if 2 ≤ segm.length then joinSpace segm else word
    | some (none, _) => word
    | none => word
  else
    match segUncappedRun word (31 * word.length + 1) (.seg word.length) [] with
    | some (some segm, _) =>
      if segm.isEmpty then greedy_segment word else joinSpace segm
    | some (none, _) => greedy_segment word
    | none => greedy_segment word

/-- Membership in `rangeList a b` gives the bounds. -/
theorem rangeList_mem {a b j : Nat} (h : j ∈ rangeList a b) :
    a ≤ j ∧ j < b := by
  rw [rangeList] at h
  rcases List.mem_map.mp h with ⟨k, hk, hj⟩
  rw [List.mem_range] at hk
  omega

/-- Length of a range list. -/
theorem rangeList_length (a b : Nat) : (rangeList a b).length = b - a := by
  rw [rangeList, List.length_map, List.length_range]

/-- The fuel bound suffices for the `_segment_long_word` interpreter: with
`needLong` fuel the outer `none` is never produced. -/
theorem segLongRun_total (word : Str) :
    ∀ (fuel : Nat) (call : LongCall) (memo : SegMemo),
      needLong call ≤ fuel →
      (segLongRun word fuel call memo).isSome = true := by
  intro fuel
  induction fuel with
  | zero =>
    intro call memo h
    exfalso
    cases call <;> simp [needLong] at h <;> omega
  | succ f ih =>
    intro call memo h
    match call with
    | .seg idx depth =>
      rw [segLongRun]
      split
      · rfl
      · rename_i hd
        cases memoLookup memo idx with
        | some v => simp
        | none =>
          simp only []
          split
          · rfl
          · refine ih _ memo ?_
            have hlen : (longEnds word idx).length ≤ 10 := by
              rw [longEnds, rangeList_length]; omega
            simp only [needLong, List.length_cons, List.length_nil] at h ⊢
            omega
    | .ends idx depth [] =>
      rw [segLongRun]
      refine ih _ memo ?_
      simp only [needLong, List.length_cons, List.length_nil] at h ⊢
      omega
    | .ends idx depth (e :: es) =>
      rw [segLongRun]
      split
      · have h1 := ih (.seg e (depth + 1)) memo (by
          simp only [needLong, List.length_cons, List.length_nil] at h ⊢; omega)
        cases heq : segLongRun word f (.seg e (depth + 1)) memo with
        | none => rw [heq] at h1; simp at h1
        | some p =>
          obtain ⟨r, m'⟩ := p
          cases r with
          | some r0 => simp
          | none =>
            simp only []
            refine ih _ m' ?_
            simp only [needLong, List.length_cons, List.length_nil] at h ⊢
            omega
      · refine ih _ memo ?_
        simp only [needLong, List.length_cons, List.length_nil] at h ⊢
        omega
    | .chunks idx depth [] =>
      rw [segLongRun]
      split <;> rfl
    | .chunks idx depth (c :: cs) =>
      rw [segLongRun]
      split
      · have h1 := ih (.seg (idx + c) (depth + 1)) memo (by
          simp only [needLong, List.length_cons, List.length_nil] at h ⊢; omega)
        cases heq : segLongRun word f (.seg (idx + c) (depth + 1)) memo with
        | none => rw [heq] at h1; simp at h1
        | some p =>
          obtain ⟨r, m'⟩ := p
          cases r with
          | some r0 => simp
          | none =>
            simp only []
            refine ih _ m' ?_
            simp only [needLong, List.length_cons, List.length_nil] at h ⊢
            omega
      · refine ih _ memo ?_
        simp only [needLong, List.length_cons, List.length_nil] at h ⊢
        omega

/-- The fuel bound suffices for the conservative interpreter. -/
theorem segConsRun_total (word : Str) :
    ∀ (fuel : Nat) (call : ConsCall) (memo : SegMemo),
      needCons call ≤ fuel →
      (segConsRun word fuel call memo).isSome = true := by
  intro fuel
  induction fuel with
  | zero =>
    intro call memo h
    exfalso
    cases call <;> simp [needCons] at h <;> omega
  | succ f ih =>
    intro call memo h
    match call with
    | .seg idx depth =>
      rw [segConsRun]
      split
      · rfl
      · cases memoLookup memo idx with
        | some v => simp
        | none =>
          simp only []
          split
          · rfl
          · refine ih _ memo ?_
            have hlen : (consStarts idx).length ≤ 12 := by
              rw [consStarts, rangeList_length]; omega
            simp only [needCons, List.length_cons, List.length_nil] at h ⊢
            omega
    | .loop idx depth [] => rw [segConsRun]; rfl
    | .loop idx depth (s :: ss) =>
      rw [segConsRun]
      split
      · have h1 := ih (.seg s (depth + 1)) memo (by
          simp only [needCons, List.length_cons, List.length_nil] at h ⊢; omega)
        cases heq : segConsRun word f (.seg s (depth + 1)) memo with
        | none => rw [heq] at h1; simp at h1
        | some p =>
          obtain ⟨r, m'⟩ := p
          cases r with
          | some prev => simp
          | none =>
            simp only []
            refine ih _ m' ?_
            simp only [needCons, List.length_cons, List.length_nil] at h ⊢
            omega
      · refine ih _ memo ?_
        simp only [needCons, List.length_cons, List.length_nil] at h ⊢
        omega

/-- Every pending candidate length of `uncappedLens` is at least 2. -/
theorem uncappedLens_ge {idx l : Nat} (h : l ∈ uncappedLens idx) : 2 ≤ l := by
  rw [uncappedLens, List.mem_reverse] at h
  exact (rangeList_mem h).1

/-- The fuel bound suffices for the uncapped interpreter: `idx` strictly
decreases by at least 2 on every recursive call. -/
theorem segUncappedRun_total (word : Str) :
    ∀ (fuel : Nat) (call : UncappedCall) (memo : SegMemo),
      needUncapped call ≤ fuel → uncappedWF call →
      (segUncappedRun word fuel call memo).isSome = true := by
  intro fuel
  induction fuel with
  | zero =>
    intro call memo h _
    exfalso
    cases call <;> simp [needUncapped] at h <;> omega
  | succ f ih =>
    intro call memo h hwf
    match call with
    | .seg idx =>
      rw [segUncappedRun]
      cases memoLookup memo idx with
      | some v => simp
      | none =>
        simp only []
        split
        · rfl
        · refine ih _ memo ?_ ?_
          · have hlen : (uncappedLens idx).length ≤ 14 := by
              rw [uncappedLens, List.length_reverse, rangeList_length]
              omega
            simp only [needUncapped, List.length_cons, List.length_nil] at h ⊢
            omega
          · exact fun l hl => uncappedLens_ge hl
    | .loopA idx [] =>
      rw [segUncappedRun]
      refine ih _ memo ?_ ?_
      · have hlen : (uncappedLens idx).length ≤ 14 := by
          rw [uncappedLens, List.length_reverse, rangeList_length]
          omega
        simp only [needUncapped, List.length_cons, List.length_nil] at h ⊢
        omega
      · exact fun l hl => uncappedLens_ge hl
    | .loopA idx (l :: ls) =>
      have hl2 : 2 ≤ l := hwf l (List.mem_cons_self _ _)
      rw [segUncappedRun]
      split
      · have h1 := ih (.seg (idx - l)) memo (by
          simp only [needUncapped, List.length_cons, List.length_nil] at h ⊢; omega) trivial
        cases heq : segUncappedRun word f (.seg (idx - l)) memo with
        | none => rw [heq] at h1; simp at h1
        | some p =>
          obtain ⟨r, m'⟩ := p
          cases r with
          | some prev => simp
          | none =>
            simp only []
            refine ih _ m' ?_ ?_
            · simp only [needUncapped, List.length_cons, List.length_nil] at h ⊢
              omega
            · exact fun x hx => hwf x (List.mem_cons_of_mem _ hx)
      · refine ih _ memo ?_ ?_
        · simp only [needUncapped, List.length_cons, List.length_nil] at h ⊢
          omega
        · exact fun x hx => hwf x (List.mem_cons_of_mem _ hx)
    | .loopB idx [] => rw [segUncappedRun]; rfl
    | .loopB idx (l :: ls) =>
      have hl2 : 2 ≤ l := hwf l (List.mem_cons_self _ _)
      rw [segUncappedRun]
      split
      · have h1 := ih (.seg (idx - l)) memo (by
          simp only [needUncapped, List.length_cons, List.length_nil] at h ⊢; omega) trivial
        cases heq : segUncappedRun word f (.seg (idx - l)) memo with
        | none => rw [heq] at h1; simp at h1
        | some p =>
          obtain ⟨r, m'⟩ := p
          cases r with
          | some prev => simp
          | none =>
            simp only []
            refine ih _ m' ?_ ?_
            · simp only [needUncapped, List.length_cons, List.length_nil] at h ⊢
              omega
            · exact fun x hx => hwf x (List.mem_cons_of_mem _ hx)
      · refine ih _ memo ?_ ?_
        · simp only [needUncapped, List.length_cons, List.length_nil] at h ⊢
          omega
        · exact fun x hx => hwf x (List.mem_cons_of_mem _ hx)

/-- The greedy loop makes strict progress: `word.length - i + 1` fuel
suffices. -/
theorem greedyGo_total (word : Str) :
    ∀ (fuel i : Nat) (acc : List Str),
      word.length - i < fuel → (greedyGo word fuel i acc).isSome = true := by
  intro fuel
  induction fuel with
  | zero => intro i acc h; omega
  | succ f ih =>
    intro i acc h
    rw [greedyGo]
    split
    · rfl
    · rename_i hi
      cases hj : greedyFind word i with
      | some j =>
        simp only []
        have hj1 : i + 1 ≤ j := by
          have hmem := List.mem_of_find?_eq_some hj
          rw [greedyFind] at hj
          rw [List.mem_reverse] at hmem
          exact (rangeList_mem hmem).1
        exact ih j _ (by omega)
      | none =>
        simp only []
        exact ih _ _ (by omega)

/-- C9: every word-segmentation recursion is bounded.  The depth-capped
interpreters for `segment_recursive` of `segment_long_word` and
`can_segment_conservative` of `segment_lowercase_word` complete within the
fuel derived from their explicit caps (100 and 50); the uncapped
`can_segment` completes within fuel linear in the word length because every
candidate length is at least 2; and the `greedy_segment` loop completes
within `length + 1` iterations.  No input reaches the fuel-exhaustion
branch at the fuels the embedded functions run with. -/
theorem c9_segmentation_terminates (word : Str) :
    (segLongRun word (16 * 102 + 1) (.seg 0 0) []).isSome = true ∧
    (segConsRun word (14 * 52 + 1) (.seg word.length 0) []).isSome = true ∧
    (segUncappedRun word (31 * word.length + 1)
      (.seg word.length) []).isSome = true ∧
    (greedyGo word (word.length + 1) 0 []).isSome = true := by
  refine ⟨?_, ?_, ?_, ?_⟩
  · exact segLongRun_total word _ _ [] (by simp [needLong])
  · exact segConsRun_total word _ _ [] (by simp [needCons])
  · exact segUncappedRun_total word _ _ [] (by simp [needUncapped]) trivial
  · exact greedyGo_total word _ 0 [] (by omega)

/-! ## Confidence scoring and response assembly
(`ConfidenceCalculator.email/phone/full_name/location`, step 8 of
`parse_lines_to_response`, and the stable-key `setdefault` loop) -/

/-- Decimal digits of a number, for the f-string reasons. -/
def natStr (n : Nat) : Str := (toString n).data

/-- Python `str(bool)` rendering. -/
def boolStr (b : Bool) : Str := if b then S "True" else S "False"

/-- Characters of the email local-part class `[A-Z0-9._%+-]` under
`re.IGNORECASE`. -/
def emailLocalChar (c : Char) : Bool :=
  isAlphaAZ c || isDigit09 c || c == '.' || c == '_' || c == '%' ||
    c == '+' || c == '-'

/-- Characters of the email domain class `[A-Z0-9.-]` under
`re.IGNORECASE`. -/
def emailDomainChar (c : Char) : Bool :=
  isAlphaAZ c || isDigit09 c || c == '.' || c == '-'

/-- Anchored match of the email pattern: a nonempty local part, `@`, a
nonempty domain run, a dot, and a final alphabetic run of length at least
two reaching the end of the string. -/
def emailFormatOk (s : Str) : Bool :=
  (List.range s.length).any (fun i =>
    s.getD i ' ' == '@' && decide (0 < i) && (s.take i).all emailLocalChar &&
    ((List.range (s.drop (i + 1)).length).any (fun j =>
      (s.drop (i + 1)).getD j ' ' == '.' && decide (0 < j) &&
      ((s.drop (i + 1)).take j).all emailDomainChar &&
      decide (2 ≤ (s.drop (i + 1)).length - (j + 1)) &&
      ((s.drop (i + 1)).drop (j + 1)).all isAlphaAZ)))

namespace ConfidenceCalculator

/-- Embedding of `ConfidenceCalculator.email`. -/
def email (email_value : Str) (evidence_count : Nat) : ℚ × Str :=
  if email_value.isEmpty then (0, S "no_email_found")
  else if !emailFormatOk email_value then (4/10, S "invalid_email_format")
  else if evidence_count = 1 then (1, S "regex_exact_single")
  else if evidence_count ≤ 3 then (85/100, S "regex_exact_multiple_occurrences")
  else (6/10, S "too_many_email_candidates")

/-- Embedding of `ConfidenceCalculator.phone`. -/
def phone (phone_value : Str) (evidence_count : Nat) : ℚ × Str :=
  if phone_value.isEmpty then (0, S "no_phone_found")
  else if (phone_value.filter isDigit09).length < 7 then
    (3/10, S "too_few_digits")
  else if evidence_count = 1 then (1, S "regex_exact_single")
  else if evidence_count ≤ 2 then (85/100, S "regex_exact_multiple")
  else (6/10, S "ambiguous_multiple_phones")

/-- Embedding of `ConfidenceCalculator.full_name`. -/
def full_name (name_value : Str) (near_email is_top_of_resume
    passes_blacklist has_middle_initial : Bool) : ℚ × Str :=
  if name_value.isEmpty then (0, S "no_name_found")
  else if 60 < name_value.length then (2/10, S "name_too_long")
  else if name_value.any isDigit09 then (3/10, S "name_contains_digits")
  else
    let c1 : ℚ := if passes_blacklist then 1/2 else 1/2 - 2/10
    let c2 : ℚ := if near_email then c1 + 25/100 else c1
    let c3 : ℚ := if is_top_of_resume then c2 + 25/100 else c2
    let c4 : ℚ := if has_middle_initial then c3 + 5/100 else c3
    if !name_value.contains ' ' then (2/10, S "no_space_in_name")
    else
      (max 0 (min 1 c4),
       if near_email && is_top_of_resume then S "heuristic_multivariate"
       else S "heuristic_window")

/-- Embedding of `ConfidenceCalculator.location`. -/
def location (location_value : Str) (extraction_method : Str)
    (has_comma is_valid_format : Bool) : ℚ × Str :=
  if location_value.isEmpty then (0, S "no_location_found")
  else
    let c1 : ℚ :=
      if extraction_method = S "regex_pattern" then
        if is_valid_format then 95/100 else 7/10
      else if extraction_method = S "heuristic" then 75/100
      else if extraction_method = S "after_title" then 65/100
      else 6/10
    let c2 : ℚ := if !has_comma then c1 - 1/10 else c1
    (max 0 (min 1 c2), extraction_method)

end ConfidenceCalculator

/-- `evidence_map.get(key, [])`. -/
def evGet (em : List (Str × List EvidenceItem)) (key : Str) :
    List EvidenceItem :=
  match em.find? (fun kv => kv.1 = key) with
  | some kv => kv.2
  | none => []

/-- The `confidence_scores["email"]` entry. -/
def emailFC (email : Option Str) (em : List (Str × List EvidenceItem)) :
    FieldConfidence :=
  if optTruthy email then
    let p := ConfidenceCalculator.email (orEmpty email)
      (evGet em (S "email")).length
    { field_name := S "email", confidence := p.1, extraction_method := p.2,
      reasons := [S "Found via regex extraction"], required := true }
  else
    { field_name := S "email", confidence := 0,
      extraction_method := S "not_found",
      reasons := [S "No email found in resume"], required := true }

/-- The `confidence_scores["phone"]` entry. -/
def phoneFC (phone : Option Str) (em : List (Str × List EvidenceItem)) :
    FieldConfidence :=
  if optTruthy phone then
    let p := ConfidenceCalculator.phone (orEmpty phone)
      (evGet em (S "phone")).length
    { field_name := S "phone", confidence := p.1, extraction_method := p.2,
      reasons := [S "Found via regex extraction"], required := true }
  else
    { field_name := S "phone", confidence := 0,
      extraction_method := S "not_found",
      reasons := [S "No phone number found in resume"], required := true }

/-- The `confidence_scores["full_name"]` entry. -/
def fullNameFC (full_name : Option Str)
    (em : List (Str × List EvidenceItem)) (email_idx : Option Nat) :
    FieldConfidence :=
  if optTruthy full_name then
    let near_email := email_idx.isSome
    let is_top := (evGet em (S "full_name")).any (fun ev =>
      (S "docx:paragraph:0").isPrefixOf ev.locator ||
        (S "pdf:page:1:line:").isPrefixOf ev.locator)
    let p := ConfidenceCalculator.full_name (orEmpty full_name) near_email
      is_top true
      ((orEmpty full_name).contains ' ' &&
        decide (3 ≤ (pySplitWs (orEmpty full_name)).length))
    { field_name := S "full_name", confidence := p.1,
      extraction_method := p.2,
      reasons := [S "Extracted from resume header area",
        S "Near email: " ++ boolStr near_email,
        S "At top: " ++ boolStr is_top], required := true }
  else
    { field_name := S "full_name", confidence := 0,
      extraction_method := S "not_found",
      reasons := [S "No candidate name found"], required := true }

/-- The `confidence_scores["location"]` entry. -/
def locationFC (location : Option Str) : FieldConfidence :=
  if optTruthy location then
    let has_comma := (orEmpty location).contains ','
    let p := ConfidenceCalculator.location (orEmpty location)
      (S "regex_pattern") has_comma has_comma
    { field_name := S "location", confidence := p.1,
      extraction_method := p.2,
      reasons := [S "Extracted from geographic pattern"], required := false }
  else
    { field_name := S "location", confidence := 0,
      extraction_method := S "not_found",
      reasons := [S "No location found"], required := false }

/-- The `confidence_scores["links"]` entry. -/
def linksFC (links : List Str) : FieldConfidence :=
  if !links.isEmpty then
    { field_name := S "links", confidence := 95/100,
      extraction_method := S "regex_url_extraction",
      reasons := [S "Found " ++ natStr links.length ++ S " URL(s) via regex"],
      required := false }
  else
    { field_name := S "links", confidence := 0,
      extraction_method := S "not_found",
      reasons := [S "No URLs found"], required := false }

/-- The `confidence_scores["skills"]` entry. -/
def skillsFC (skills : List Str) : FieldConfidence :=
  if !skills.isEmpty then
    { field_name := S "skills", confidence := 85/100,
      extraction_method := S "section_extraction",
      reasons := [S "Found " ++ natStr skills.length ++ S " skills"],
      required := false }
  else
    { field_name := S "skills", confidence := 0,
      extraction_method := S "not_found",
      reasons := [S "No skills found"], required := false }

/-- The `confidence_scores["experiences"]` entry. -/
def experiencesFC (experiences : List Experience) : FieldConfidence :=
  if !experiences.isEmpty then
    { field_name := S "experiences", confidence := 85/100,
      extraction_method := S "multi_line_experience_parsing",
      reasons := [S "Found " ++ natStr experiences.length ++
        S " experience entries"], required := false }
  else
    { field_name := S "experiences", confidence := 0,
      extraction_method := S "not_found",
      reasons := [S "No experience section found"], required := false }

/-- Step 8 of `parse_lines_to_response`: the `confidence_scores` dict in
assignment order.  Both branches of every `if` assign the same key, so the
key set is fixed; no branch ever assigns an `education` entry (the
education list is not even an input of this step). -/
def buildConfidenceScores (email phone full_name location : Option Str)
    (links skills : List Str) (experiences : List Experience)
    (em : List (Str × List EvidenceItem)) (email_idx : Option Nat) :
    List (Str × FieldConfidence) :=
  [(S "email", emailFC email em),
   (S "phone", phoneFC phone em),
   (S "full_name", fullNameFC full_name em email_idx),
   (S "location", locationFC location),
   (S "links", linksFC links),
   (S "skills", skillsFC skills),
   (S "experiences", experiencesFC experiences)]

/-- The stable-key loop `evidence_map.setdefault(key, [])` over a list of
keys (a missing key is appended with an empty list, in loop order). -/
def setdefaultKeys (em : List (Str × List EvidenceItem)) :
    List Str → List (Str × List EvidenceItem)
  | [] => em
  | k :: rest =>
    setdefaultKeys
      (if (em.find? (fun kv => kv.1 = k)).isSome then em else em ++ [(k, [])])
      rest

/-- The exact key list of the stable-key loop. -/
def stableEvidenceKeys : List Str :=
  [S "full_name", S "email", S "phone", S "location", S "links", S "skills",
   S "experiences", S "education"]

/-- The finalized evidence map returned in the `ParseResponse`. -/
def finalize_evidence_map (em : List (Str × List EvidenceItem)) :
    List (Str × List EvidenceItem) :=
  setdefaultKeys em stableEvidenceKeys

/-- After running the setdefault loop, every key that was present before or
appears in the key list is present. -/
theorem setdefaultKeys_mem :
    ∀ (keys : List Str) (em : List (Str × List EvidenceItem)) (k : Str),
      ((∃ kv ∈ em, kv.1 = k) ∨ k ∈ keys) →
      ∃ kv ∈ setdefaultKeys em keys, kv.1 = k := by
  intro keys
  induction keys with
  | nil =>
    intro em k h
    rcases h with h | h
    · exact h
    · simp at h
  | cons k' rest ih =>
    intro em k h
    rw [setdefaultKeys]
    rcases h with ⟨kv, hkv, hk⟩ | h
    · refine ih _ k (Or.inl ⟨kv, ?_, hk⟩)
      split
      · exact hkv
      · exact List.mem_append_left _ hkv
    · rcases List.mem_cons.mp h with h | h
      · refine ih _ k (Or.inl ?_)
        split
        · rename_i hf
          rcases Option.isSome_iff_exists.mp hf with ⟨kv, hkv⟩
          exact ⟨kv, List.mem_of_find?_eq_some hkv,
            by have := List.find?_some hkv; simp at this; rw [this, h]⟩
        · exact ⟨(k', []), List.mem_append_right _ (List.mem_singleton_self _),
            h.symm⟩
      · exact ih _ k (Or.inr h)

/-- C10: the `confidence_scores` map has exactly the seven keys `email`,
`phone`, `full_name`, `location`, `links`, `skills`, `experiences` in
assignment order — in particular no `education` entry exists, whatever was
extracted (the education list is not an input of the scoring step) — while
the finalized evidence map always contains an `education` key thanks to the
stable-key setdefault loop. -/
theorem c10_confidence_keys (email phone full_name location : Option Str)
    (links skills : List Str) (experiences : List Experience)
    (em : List (Str × List EvidenceItem)) (email_idx : Option Nat) :
    ((buildConfidenceScores email phone full_name location links skills
        experiences em email_idx).map Prod.fst =
      [S "email", S "phone", S "full_name", S "location", S "links",
       S "skills", S "experiences"]) ∧
    S "education" ∉ (buildConfidenceScores email phone full_name location
      links skills experiences em email_idx).map Prod.fst ∧
    S "education" ∈ (finalize_evidence_map em).map Prod.fst := by
  refine ⟨rfl, ?_, ?_⟩
  · intro hmem
    rw [show (buildConfidenceScores email phone full_name location links
        skills experiences em email_idx).map Prod.fst =
      [S "email", S "phone", S "full_name", S "location", S "links",
       S "skills", S "experiences"] from rfl] at hmem
    revert hmem
    decide
  · have h := setdefaultKeys_mem stableEvidenceKeys em (S "education")
      (Or.inr (by decide))
    rcases h with ⟨kv, hkv, hk⟩
    exact List.mem_map.mpr ⟨kv, hkv, hk⟩

/-! ## The composed pipeline and determinism

`parse_lines_to_response` composes the stages embedded above.  The stages
whose internals other claims do not depend on — the phone value extractor,
the flexible email extractor, and the per-entry experience and education
field extractors — enter as function parameters; every construct of the
source with an iteration order is a list or an insertion-ordered dict, and
the two Python `set`s involved (`US_STATES` and the keyword sets) are used
only through membership tests, so every stage is a pure function of its
inputs.  The bundle below runs them all on one input. -/

/-- One `add_ev` call: append an item to the list under `key`, creating the
key at the end on first use (`setdefault(key, []).append(item)`). -/
def evAppend (em : List (Str × List EvidenceItem)) (key : Str)
    (item : EvidenceItem) : List (Str × List EvidenceItem) :=
  if (em.find? (fun kv => kv.1 = key)).isSome then
    em.map (fun kv => if kv.1 = key then (kv.1, kv.2 ++ [item]) else kv)
  else em ++ [(key, [item])]

/-- A run of `add_ev` calls for one field. -/
def evExtend (em : List (Str × List EvidenceItem)) (key : Str)
    (items : List EvidenceItem) : List (Str × List EvidenceItem) :=
  items.foldl (fun m it => evAppend m key it) em

/-- The composed pipeline over one input line sequence: the four scalar
scans, the section groupers, the final education routing, the confidence
scores, the parse quality and the finalized evidence map, bundled into one
value (`none` models the converter crash aborting the parse). -/
def parse_pipeline (phoneFound : Str → Bool)
    (phoneValue : List Line → Option Str) (extractEmail : Str → Option Str)
    (parseExp : List Line → Experience)
    (parseEdu : List Line → Option EducationEntry) (source : Str)
    (expIdx eduIdx : Option Nat) (links skills : List Str)
    (lines : List Line) :
    Option ((Option Str × Option Str × Option Str × Option Str) ×
      (List Experience × List EducationEntry × List Str) ×
      List (Str × FieldConfidence) × Str ×
      List (Str × List EvidenceItem)) :=
  let phone := phone_scan phoneFound source lines
  let email := email_scan extractEmail source lines
  let name := name_scan source email.1 lines email.2.2
  let loc := location_scan source lines
  let exps := ((match expIdx with
    | some i => group_experience_entries lines i
    | none => []).map parseExp).filter
      (fun e => optTruthy e.company || optTruthy e.job_title)
  let edus := (match eduIdx with
    | some i => group_education_entries lines i
    | none => []).filterMap parseEdu
  match finalize_profile eduIdx.isSome edus exps with
  | none => none
  | some (finalExps, finalEdus, ws) =>
    let em := evExtend (evExtend [] (S "phone") phone.1) (S "email") email.2.1
    let em := match name with
      | some p => evAppend em (S "full_name") p.2
      | none => em
    let em := match loc with
      | some p => evAppend em (S "location") p.2
      | none => em
    let phoneV := if phone.2.isSome then phoneValue lines else none
    let cs := buildConfidenceScores email.1 phoneV (name.map (·.1))
      (loc.map (·.1)) links skills finalExps em email.2.2
    let pq := calculate_overall_parse_quality
      (cs.map (fun kv => (kv.1, kv.2.confidence)))
    some ((name.map (·.1), email.1, phoneV, loc.map (·.1)),
      (finalExps, finalEdus, ws), cs, pq, finalize_evidence_map em)

/-- C8: the pipeline is deterministic — for any fixed extractor functions
and tags, two runs on identical input line sequences produce identical
bundled outputs (profile fields, experiences, education, warnings,
confidence scores, parse quality and evidence map).  In the embedding every
stage is a function, which is exactly what the source admits: it reads no
clock, random source or global mutable state, and its only unordered
containers are sets used through membership alone. -/
theorem c8_pipeline_deterministic (phoneFound : Str → Bool)
    (phoneValue : List Line → Option Str) (extractEmail : Str → Option Str)
    (parseExp : List Line → Experience)
    (parseEdu : List Line → Option EducationEntry) (source : Str)
    (expIdx eduIdx : Option Nat) (links skills : List Str)
    (lines₁ lines₂ : List Line) (h : lines₁ = lines₂) :
    parse_pipeline phoneFound phoneValue extractEmail parseExp parseEdu
      source expIdx eduIdx links skills lines₁ =
    parse_pipeline phoneFound phoneValue extractEmail parseExp parseEdu
      source expIdx eduIdx links skills lines₂ := by
  rw [h]

/-- Witness for C8 at a concrete input: re-running the pipeline on the same
two-line resume gives the same output. -/
theorem c8_pipeline_deterministic_witness :
    parse_pipeline (fun _ => false) (fun _ => none) (fun _ => none)
      (fun _ => {}) (fun _ => none) (S "docx") none none [] []
      [(S "docx:paragraph:0", S "John Doe")] =
    parse_pipeline (fun _ => false) (fun _ => none) (fun _ => none)
      (fun _ => {}) (fun _ => none) (S "docx") none none [] []
      [(S "docx:paragraph:0", S "John Doe")] :=
  c8_pipeline_deterministic (fun _ => false) (fun _ => none) (fun _ => none)
    (fun _ => {}) (fun _ => none) (S "docx") none none [] []
    [(S "docx:paragraph:0", S "John Doe")]
    [(S "docx:paragraph:0", S "John Doe")] rfl

end Resume
